import Mathlib

/-!
Verification development for the TypeDoc RAG extractor.

The source is dynamically typed JavaScript/TypeScript operating on parsed
JSON trees (TypeDoc reflections and type objects).  We embed the dynamic
values as the inductive `Json` below and translate each source function into
a Lean function over `Json`.  Runtime exceptions (`TypeError` from calling an
array method on a non-array, reading a property of `null`/`undefined`,
iterating a non-iterable, …) are modelled with `Except JsErr`.  Recursive
functions over `Json` take a fuel parameter; exhausting fuel yields the
distinguished error `JsErr.outOfFuel`, which never occurs when the fuel is at
least the size of the input.

Modelling scope, stated once here:
* numbers are modelled as integers (the repository only ever renders ids,
  line numbers and literal values, and the claims only involve integers);
* a JavaScript value appearing in string position (template literal, `+=`,
  `Array.prototype.join`) is rendered with `jsToStr`, which implements the
  usual JS coercions (`null` → "null", `undefined` → "undefined", arrays
  join with ",", plain objects → "[object Object]");
* string routines (`trim`, `toLowerCase`, whitespace splitting) are modelled
  on the ASCII range, which covers every string the claims touch;
* iterating a value with `for … of` is modelled for arrays and strings, the
  only iterable shapes in the model; destructuring `[a, b] = v` likewise.
-/

/-- A JavaScript/JSON runtime value. -/
inductive Json where
  | null : Json
  | undef : Json
  | bool : Bool → Json
  | num : Int → Json
  | str : String → Json
  | arr : List Json → Json
  | obj : List (String × Json) → Json

mutual
/-- Structural equality test on values (JS `===` on the shapes the source
compares; the source only ever compares atoms). -/
def jsonBEq : Json → Json → Bool
  | .null, .null => true
  | .undef, .undef => true
  | .bool a, .bool b => a == b
  | .num a, .num b => a == b
  | .str a, .str b => a == b
  | .arr a, .arr b => jsonBEqList a b
  | .obj a, .obj b => jsonBEqFields a b
  | _, _ => false

/-- Elementwise equality of value lists. -/
def jsonBEqList : List Json → List Json → Bool
  | [], [] => true
  | a :: as_, b :: bs => jsonBEq a b && jsonBEqList as_ bs
  | _, _ => false

/-- Elementwise equality of field lists. -/
def jsonBEqFields : List (String × Json) → List (String × Json) → Bool
  | [], [] => true
  | (ka, va) :: as_, (kb, vb) :: bs => ka == kb && jsonBEq va vb && jsonBEqFields as_ bs
  | _, _ => false
end

instance : BEq Json := ⟨jsonBEq⟩

/-- Errors a translated function can raise: a thrown `TypeError`, or fuel
exhaustion (an artifact of the embedding, never reachable with enough fuel). -/
inductive JsErr where
  | typeError : JsErr
  | outOfFuel : JsErr
deriving DecidableEq, Repr

/-- JavaScript truthiness. -/
def jsTruthy : Json → Bool
  | .null => false
  | .undef => false
  | .bool b => b
  | .num n => !(n == 0)
  | .str s => !(s == "")
  | .arr _ => true
  | .obj _ => true

/-- First-match lookup in an object's field list (JS objects have unique
keys, so the convention is immaterial); a missing key reads as `undefined`. -/
def fieldLookup : List (String × Json) → String → Json
  | [], _ => .undef
  | (k', v) :: rest, k => if k' == k then v else fieldLookup rest k

/-- Property access `o.k` on a receiver that is not `null`/`undefined`:
primitives and arrays simply yield `undefined` for the fields the source
reads. -/
def getF : Json → String → Json
  | .obj fs, k => fieldLookup fs k
  | _, _ => (.undef)

/-- Property access `o.k` in full: reading a property of `null` or
`undefined` throws a `TypeError`. -/
def jsGet : Json → String → Except JsErr Json
  | .null, _ => .error .typeError
  | .undef, _ => .error .typeError
  | j, k => .ok (getF j k)

/-- Optional chaining `o?.k`: a nullish receiver yields `undefined`. -/
def optGet : Json → String → Json
  | .null, _ => .undef
  | .undef, _ => .undef
  | j, k => getF j k

/-- The JS `||` operator. -/
def jsOr (a b : Json) : Json :=
  if jsTruthy a then a else b

/-- Calling an array method (`.map`, `.filter`, `.forEach`) on a value:
anything but an array throws a `TypeError`. -/
def asArray : Json → Except JsErr (List Json)
  | .arr xs => .ok xs
  | _ => .error .typeError

/-- `for … of v`: arrays iterate their elements, strings their characters,
anything else throws a `TypeError`. -/
def jsIterate : Json → Except JsErr (List Json)
  | .arr xs => .ok xs
  | .str s => .ok (s.data.map fun c => .str (String.mk [c]))
  | _ => .error .typeError

/-- Indexing `v[i]` for a nonnegative index. -/
def jsIndex : Json → Nat → Json
  | .arr xs, i => xs.getD i .undef
  | .str s, i => if i < s.length then .str (String.mk [s.data.getD i ' ']) else .undef
  | .obj fs, i => fieldLookup fs (toString i)
  | _, _ => .undef

mutual
/-- JS string coercion of a value (as used by template literals and `+`). -/
def jsToStr : Json → String
  | .null => "null"
  | .undef => "undefined"
  | .bool b => if b then "true" else "false"
  | .num n => toString n
  | .str s => s
  | .arr xs => String.intercalate "," (jsToStrList xs)
  | .obj _ => "[object Object]"

/-- `Array.prototype.toString` joins with "," and renders nullish elements
as the empty string. -/
def jsToStrList : List Json → List String
  | [] => []
  | .null :: xs => "" :: jsToStrList xs
  | .undef :: xs => "" :: jsToStrList xs
  | x :: xs => jsToStr x :: jsToStrList xs
end

/-- `Array.prototype.join(sep)` renders nullish elements as the empty
string and coerces the rest. -/
def joinItem : Json → String
  | .null => ""
  | .undef => ""
  | v => jsToStr v

/-- A `v.toString()` method call: throws on nullish receivers. -/
def jsToStringMethod : Json → Except JsErr String
  | .null => .error .typeError
  | .undef => .error .typeError
  | v => .ok (jsToStr v)

/-- ASCII lowercasing, character by character (`String.prototype.toLowerCase`
on the ASCII range). -/
def jsStrToLower (s : String) : String :=
  String.mk (s.data.map Char.toLower)

/-- `v.toLowerCase()`: only strings have the method in this model. -/
def jsToLowerCase : Json → Except JsErr String
  | .str s => .ok (jsStrToLower s)
  | _ => .error .typeError

/-- The value of `v.length`: arrays and strings expose their length, plain
objects their `length` field, everything else reads `undefined`. -/
def lengthVal : Json → Json
  | .arr xs => .num xs.length
  | .str s => .num s.length
  | .obj fs => fieldLookup fs "length"
  | _ => (.undef)

/-- The whitespace class of the regex `\s` (ASCII range). -/
def isWsChar (c : Char) : Bool :=
  c == ' ' || c == '\t' || c == '\n' || c == '\r' || c == '\x0b' || c == '\x0c'

/-- Value of a nonempty all-digit character run; `none` otherwise. -/
def decDigitsToNat : List Char → Option Nat
  | [] => none
  | cs =>
    if cs.all Char.isDigit then
      some (cs.foldl (fun a c => a * 10 + (c.toNat - 48)) 0)
    else none

/-- `ToNumber` on a string: surrounding whitespace is ignored, the empty
string is 0, an optionally signed decimal integer numeral has its value,
anything else is `NaN` (`none`).  Fractional and exotic numerals are
outside the integer scope of the model (no claim produces them). -/
def jsStrToNumber (s : String) : Option Int :=
  match ((s.data.dropWhile isWsChar).reverse.dropWhile isWsChar).reverse with
  | [] => some 0
  | '+' :: rest => (decDigitsToNat rest).map fun n => (n : Int)
  | '-' :: rest => (decDigitsToNat rest).map fun n => -(n : Int)
  | cs => (decDigitsToNat cs).map fun n => (n : Int)

/-- `ToNumber` of a value: `null` is 0, `undefined` is `NaN`, booleans are
0/1, a string parses as above, an array converts through its join string,
and a plain object converts through "[object Object]", which is `NaN`. -/
def jsToNumber : Json → Option Int
  | .null => some 0
  | .undef => none
  | .bool b => some (if b then 1 else 0)
  | .num n => some n
  | .str s => jsStrToNumber s
  | .arr xs => jsStrToNumber (jsToStr (.arr xs))
  | .obj _ => none

/-- The JS comparison `v > 0`: coercing, with `NaN > 0` false. -/
def jsGtZero (v : Json) : Bool :=
  match jsToNumber v with
  | some n => decide (0 < n)
  | none => false

/-- `v.length > 0`: the coercing comparison applied to the length value. -/
def jsLengthGtZero (v : Json) : Bool :=
  jsGtZero (lengthVal v)

/-- `v.length === 0`. -/
def jsLengthEqZero (v : Json) : Bool :=
  match lengthVal v with
  | .num n => n == 0
  | _ => false

/-- `v || dflt` in string position: the truthy raw value coerced to a
string, else the default. -/
def jsOrToStr (v : Json) (dflt : String) : String :=
  if jsTruthy v then jsToStr v else dflt

/-- A value that is neither `null` nor `undefined`. -/
def nonNullish : Json → Bool
  | .null => false
  | .undef => false
  | _ => true

/-- Substring test (`String.prototype.includes` / a literal-alternative
regex test); the needles used by the source are all nonempty. -/
def strContains (s pat : String) : Bool :=
  !((s.splitOn pat).length == 1)

/-- Auxiliary walk for `jsSplitWs`: emit the token gathered so far at the
end of each maximal whitespace run and at the end of the string. -/
def splitWsGo : List Char → List Char → List String
  | [], cur => [String.mk cur.reverse]
  | c :: cs, cur =>
    if isWsChar c then
      match cs with
      | c2 :: _ =>
        if isWsChar c2 then splitWsGo cs cur
        else String.mk cur.reverse :: splitWsGo cs []
      | [] => String.mk cur.reverse :: splitWsGo cs []
    else
      splitWsGo cs (c :: cur)

/-- `s.split(/\s+/)` with JavaScript semantics: an empty string yields
`[""]`, and leading/trailing whitespace contributes empty fields. -/
def jsSplitWs (s : String) : List String :=
  if s == "" then [""] else splitWsGo s.data []

/-- Minimal JSON string escaping as performed by `JSON.stringify` (the
control characters beyond these do not occur in the claims). -/
def jsonEscapeChar (c : Char) : String :=
  if c == '"' then "\\\""
  else if c == '\\' then "\\\\"
  else if c == '\n' then "\\n"
  else if c == '\t' then "\\t"
  else if c == '\r' then "\\r"
  else String.mk [c]

/-- Escape a whole string for `JSON.stringify`. -/
def jsonEscape (s : String) : String :=
  String.join (s.data.map jsonEscapeChar)

mutual
/-- `JSON.stringify(v)` (compact form).  A top-level `undefined` cannot
reach this function in the source (it is filtered out beforehand). -/
def jsonStringify : Json → String
  | .null => "null"
  | .undef => "undefined"
  | .bool b => if b then "true" else "false"
  | .num n => toString n
  | .str s => "\"" ++ jsonEscape s ++ "\""
  | .arr xs => "[" ++ String.intercalate "," (jsonStringifyArr xs) ++ "]"
  | .obj fs => "\x7b" ++ String.intercalate "," (jsonStringifyObj fs) ++ "\x7d"

/-- Array elements: `undefined` serializes as `null`. -/
def jsonStringifyArr : List Json → List String
  | [] => []
  | .undef :: xs => "null" :: jsonStringifyArr xs
  | x :: xs => jsonStringify x :: jsonStringifyArr xs

/-- Object fields: `undefined`-valued fields are omitted. -/
def jsonStringifyObj : List (String × Json) → List String
  | [] => []
  | (_, .undef) :: fs => jsonStringifyObj fs
  | (k, v) :: fs =>
    ("\"" ++ jsonEscape k ++ "\":" ++ jsonStringify v) :: jsonStringifyObj fs
end

/-!  ### type-converter: `typeToString` and its helpers

The source threads an optional `context` argument through every call, but no
code path ever reads it, so the embedding drops the parameter.  Each helper
receives the recursive renderer as the function argument `rec`. -/

/-- `stringifyLiteral` from the type converter. -/
def stringifyLiteral (value : Json) : String :=
  match value with
  | .null => "null"
  | .undef => "undefined"
  | .str s => "\"" ++ s ++ "\""
  | .num n => toString n
  | .bool b => if b then "true" else "false"
  | v =>
    -- typeof value === "object" (arrays included): BigInt support
    if !(getF v "negative" == .undef) && !(getF v "value" == .undef) then
      (if jsTruthy (getF v "negative") then "-" else "") ++ jsToStr (getF v "value") ++ "n"
    else
      jsonStringify v

/-- `handleReferenceType`. -/
def handleReferenceType (rec : Json → Except JsErr String) (type : Json) :
    Except JsErr String := do
  let result := jsOrToStr (getF type "name") "unknown"
  let ta := getF type "typeArguments"
  if jsTruthy ta && jsLengthGtZero ta then do
    let xs ← asArray ta
    let rs ← xs.mapM rec
    pure (result ++ "<" ++ String.intercalate ", " rs ++ ">")
  else
    pure result

/-- The property callback of `handleReflectionType`'s `children.map`. -/
def reflChildStep (rec : Json → Except JsErr String) (child : Json) :
    Except JsErr String := do
  let ct ← jsGet child "type"
  let propType ← if jsTruthy ct then rec ct else pure "any"
  pure (jsToStr (getF child "name") ++ ": " ++ propType)

/-- The parameter callback of `handleReflectionType`'s `parameters.map`. -/
def reflParamStep (rec : Json → Except JsErr String) (p : Json) :
    Except JsErr String := do
  let pn ← jsGet p "name"
  let pt ← rec (getF p "type")
  pure (jsToStr pn ++ ": " ++ pt)

/-- `handleReflectionType`. -/
def handleReflectionType (rec : Json → Except JsErr String) (type : Json) :
    Except JsErr String := do
  let declaration := getF type "declaration"
  if !jsTruthy declaration then
    pure "\x7b...\x7d"
  else if jsTruthy (getF declaration "children") then do
    let cs ← asArray (getF declaration "children")
    let props ← cs.mapM (reflChildStep rec)
    pure ("\x7b " ++ String.intercalate "; " props ++ " \x7d")
  else if jsTruthy (getF declaration "signatures") then do
    -- Function type: only the first signature is rendered
    let sig := jsIndex (getF declaration "signatures") 0
    let ps ← jsGet sig "parameters"
    let params ←
      match ps with
      | .null => pure ""
      | .undef => pure ""
      | _ => do
        let xs ← asArray ps
        let rs ← xs.mapM (reflParamStep rec)
        pure (String.intercalate ", " rs)
    let returnType ← rec (getF sig "type")
    pure ("(" ++ params ++ ") => " ++ returnType)
  else
    pure "\x7b...\x7d"

/-- `handleConditionalType`. -/
def handleConditionalType (rec : Json → Except JsErr String) (type : Json) :
    Except JsErr String := do
  let check ← rec (getF type "checkType")
  let extendsType ← rec (getF type "extendsType")
  let trueType ← rec (getF type "trueType")
  let falseType ← rec (getF type "falseType")
  pure (check ++ " extends " ++ extendsType ++ " ? " ++ trueType ++ " : " ++ falseType)

/-- `handleInferredType`. -/
def handleInferredType (rec : Json → Except JsErr String) (type : Json) :
    Except JsErr String := do
  let base := "infer " ++ jsToStr (getF type "name")
  if jsTruthy (getF type "constraint") then do
    let c ← rec (getF type "constraint")
    pure (base ++ " extends " ++ c)
  else
    pure base

/-- `handleMappedType`. -/
def handleMappedType (rec : Json → Except JsErr String) (type : Json) :
    Except JsErr String := do
  let r1 := "\x7b "
  let r2 := if jsTruthy (getF type "readonlyModifier")
            then r1 ++ jsToStr (getF type "readonlyModifier") ++ " " else r1
  let pt ← rec (getF type "parameterType")
  let r3 := r2 ++ "[" ++ jsToStr (getF type "parameter") ++ " in " ++ pt ++ "]"
  let r4 := if jsTruthy (getF type "optionalModifier")
            then r3 ++ jsToStr (getF type "optionalModifier") else r3
  let tt ← rec (getF type "templateType")
  let r5 := r4 ++ ": " ++ tt
  let r6 ← if jsTruthy (getF type "nameType") then do
      let nt ← rec (getF type "nameType")
      pure (r5 ++ " as " ++ nt)
    else pure r5
  pure (r6 ++ " \x7d")

/-- Iterable destructuring `[a, b] = v` as used on the template-literal
tail pairs: arrays and strings destructure, everything else throws. -/
def destructure2 : Json → Except JsErr (Json × Json)
  | .arr xs => .ok (xs.getD 0 .undef, xs.getD 1 .undef)
  | .str s => .ok ((jsIterate (.str s)).toOption.getD [] |>.getD 0 .undef,
                   (jsIterate (.str s)).toOption.getD [] |>.getD 1 .undef)
  | _ => .error .typeError

/-- The loop body of `handleTemplateLiteral`'s `for` over the tail pairs. -/
def templateTailStep (rec : Json → Except JsErr String) (acc : String) (pair : Json) :
    Except JsErr String := do
  let (tailType, tailStr) ← destructure2 pair
  let t ← rec tailType
  pure (acc ++ "$\x7b" ++ t ++ "\x7d" ++ jsToStr tailStr)

/-- `handleTemplateLiteral`. -/
def handleTemplateLiteral (rec : Json → Except JsErr String) (type : Json) :
    Except JsErr String := do
  let head := "`" ++ jsToStr (getF type "head")
  let pairs ← jsIterate (getF type "tail")
  let body ← pairs.foldlM (templateTailStep rec) head
  pure (body ++ "`")

/-- `handlePredicate`.  When neither clause fires the source returns the raw
`name` value; the embedding coerces it to a string at the boundary. -/
def handlePredicate (rec : Json → Except JsErr String) (type : Json) :
    Except JsErr String := do
  let base := if jsTruthy (getF type "asserts")
              then "asserts " ++ jsToStr (getF type "name")
              else jsToStr (getF type "name")
  if jsTruthy (getF type "targetType") then do
    let t ← rec (getF type "targetType")
    pure (base ++ " is " ++ t)
  else
    pure base

/-- `typeToString` from the type converter.  The `switch` on `type.type`
only matches string tags (strict equality), so the dispatch first requires
the tag to be a string; any other tag value falls to the `default` rule. -/
def typeToString : Nat → Json → Except JsErr String
  | 0, _ => .error .outOfFuel
  | fuel + 1, type =>
    if !jsTruthy type then pure "any"
    else match type with
    | .str s => pure s
    | _ =>
      match getF type "type" with
      | .str tag =>
        if tag == "intrinsic" then
          pure (jsOrToStr (getF type "name") "any")
        else if tag == "reference" then
          handleReferenceType (typeToString fuel) type
        else if tag == "array" then do
          let e ← typeToString fuel (getF type "elementType")
          pure (e ++ "[]")
        else if tag == "union" then do
          let ts ← asArray (getF type "types")
          let rs ← ts.mapM (typeToString fuel)
          pure (String.intercalate " | " rs)
        else if tag == "intersection" then do
          let ts ← asArray (getF type "types")
          let rs ← ts.mapM (typeToString fuel)
          pure (String.intercalate " & " rs)
        else if tag == "literal" then
          pure (stringifyLiteral (getF type "value"))
        else if tag == "tuple" then do
          let ts ← asArray (getF type "elements")
          let rs ← ts.mapM (typeToString fuel)
          pure ("[" ++ String.intercalate ", " rs ++ "]")
        else if tag == "namedTupleMember" then do
          let name := jsOrToStr (getF type "name") "unknown"
          let element ← typeToString fuel (getF type "element")
          pure (name ++ ": " ++ element)
        else if tag == "reflection" then
          handleReflectionType (typeToString fuel) type
        else if tag == "optional" then do
          let e ← typeToString fuel (getF type "elementType")
          pure (e ++ " | undefined")
        else if tag == "rest" then do
          let e ← typeToString fuel (getF type "elementType")
          pure ("..." ++ e)
        else if tag == "conditional" then
          handleConditionalType (typeToString fuel) type
        else if tag == "inferred" then
          handleInferredType (typeToString fuel) type
        else if tag == "indexedAccess" then do
          let o ← typeToString fuel (getF type "objectType")
          let i ← typeToString fuel (getF type "indexType")
          pure (o ++ "[" ++ i ++ "]")
        else if tag == "mapped" then
          handleMappedType (typeToString fuel) type
        else if tag == "typeOperator" then do
          let t ← typeToString fuel (getF type "target")
          pure (jsToStr (getF type "operator") ++ " " ++ t)
        else if tag == "query" then do
          let q ← typeToString fuel (getF type "queryType")
          pure ("typeof " ++ q)
        else if tag == "templateLiteral" then
          handleTemplateLiteral (typeToString fuel) type
        else if tag == "predicate" then
          handlePredicate (typeToString fuel) type
        else
          -- switch default
          pure (jsOrToStr (getF type "name") "unknown")
      | _ =>
        -- switch default (non-string tag value)
        pure (jsOrToStr (getF type "name") "unknown")

/-!  ### comment-parser -/

/-- `parseInlineTag` from the comment parser.  The `@linkplain` and default
branches return the raw tag value; the caller's `join("")` coerces it. -/
def parseInlineTag (tag : Json) : Json :=
  match getF tag "tag" with
  | .str "@link" =>
    .str ("[" ++ jsToStr (jsOr (getF tag "text") (getF tag "name")) ++ "](" ++
          jsToStr (jsOr (getF tag "target") (getF tag "name")) ++ ")")
  | .str "@linkcode" =>
    .str ("[" ++ jsToStr (jsOr (getF tag "text") (getF tag "name")) ++ "](" ++
          jsToStr (jsOr (getF tag "target") (getF tag "name")) ++ ")")
  | .str "@linkplain" => jsOr (getF tag "text") (getF tag "name")
  | .str "@tutorial" => .str ("[Tutorial: " ++ jsToStr (getF tag "name") ++ "]")
  | _ => jsOr (getF tag "text") (jsOr (getF tag "name") (.str ""))

/-- `extractCommentParts` from the comment parser (the variant that also
renders inline tags and code spans).  Each part produces a raw value and
`join("")` coerces them. -/
def extractCommentParts (parts : Json) : Except JsErr String := do
  if !jsTruthy parts then pure ""
  else do
    let xs ← asArray parts
    let vs ← xs.mapM fun part => do
      let k ← jsGet part "kind"
      match k with
      | .str "text" => pure (getF part "text")
      | .str "code" => pure (Json.str ("`" ++ jsToStr (getF part "text") ++ "`"))
      | .str "inline-tag" => pure (parseInlineTag part)
      | .str "code-span" => pure (Json.str ("`" ++ jsToStr (getF part "text") ++ "`"))
      | _ => pure (Json.str "")
    pure (String.join (vs.map joinItem))

/-- `extractAuthorTags`: filter the block tags to `@author` and render each.
The `filter` reads every element's `tag` before `map` renders the matches. -/
def extractAuthorTags (comment : Json) : Except JsErr (List String) := do
  if !jsTruthy (getF comment "blockTags") then pure []
  else do
    let xs ← asArray (getF comment "blockTags")
    let tagged ← xs.mapM fun t => do
      let tg ← jsGet t "tag"
      pure (t, tg)
    let matching := tagged.filter fun p => p.2 == .str "@author"
    matching.mapM fun p => extractCommentParts (getF p.1 "content")

/-- The language alternatives of the fenced-code-block regex, in
alternation order. -/
def fenceLangs : List String := ["typescript", "ts", "javascript", "js", "tsx", "jsx"]

/-- Prefix test on character lists. -/
def charsStartWith : List Char → List Char → Bool
  | [], _ => true
  | _ :: _, [] => false
  | p :: ps, c :: cs => p == c && charsStartWith ps cs

/-- Find the earliest occurrence of the closing fence "```" and split the
input there, returning the body before it and the remainder after it. -/
def findCloseFence : List Char → Option (List Char × List Char)
  | [] => none
  | c :: cs =>
    if charsStartWith ['`', '`', '`'] (c :: cs) then
      some ([], cs.drop 2)
    else
      match findCloseFence cs with
      | some (pre, post) => some (c :: pre, post)
      | none => none

/-- Try to match the fence opener `\x60\x60\x60(?:lang)?\n` at the head of
the input; at most one alternative can succeed because each candidate ends
with the newline.  Returns the body start on success. -/
def matchFenceOpen (cs : List Char) : Option (List Char) :=
  if charsStartWith ['`', '`', '`'] cs then
    let rest := cs.drop 3
    let candidates := fenceLangs.map (fun l => l.data ++ ['\n']) ++ [['\n']]
    match candidates.find? (fun cand => charsStartWith cand rest) with
    | some cand => some (rest.drop cand.length)
    | none => none
  else
    none

/-- The `regex.exec` loop of `extractCodeBlocks`: at each position try the
fence opener followed by a lazily matched body and a closing fence; on a
match, push the trimmed body and resume after the closing fence, otherwise
advance one character.  Fuel bounds the scan (the input length suffices). -/
def scanCodeBlocks : Nat → List Char → List String
  | 0, _ => []
  | _, [] => []
  | fuel + 1, c :: cs =>
    match matchFenceOpen (c :: cs) with
    | some body =>
      match findCloseFence body with
      | some (pre, post) => (String.mk pre).trim :: scanCodeBlocks fuel post
      | none => scanCodeBlocks fuel cs
    | none => scanCodeBlocks fuel cs

/-- `extractCodeBlocks`: all fenced code regions of the text, trimmed, in
order of appearance. -/
def extractCodeBlocks (text : String) : List String :=
  scanCodeBlocks (text.length + 1) text.data

/-- `isCodeExample`: the regex is an alternation of literals, i.e. a
substring test for each alternative. -/
def isCodeExample (text : String) : Bool :=
  strContains text "```" || strContains text "function " || strContains text "const " ||
  strContains text "let " || strContains text "var " || strContains text "\x7b" ||
  strContains text "\x7d" || strContains text "()" || strContains text "=>" ||
  strContains text "async" || strContains text "await" || strContains text "import" ||
  strContains text "export"

/-- `detectLanguage`: heuristic language tag, checks in source order. -/
def detectLanguage (text : String) : String :=
  if strContains text "async" || strContains text "=>" || strContains text "function" ||
     strContains text "interface" || strContains text "type" || strContains text "class" then
    "typescript"
  else if strContains text "<!--" then
    "html"
  else if strContains text "@" then
    "typescript"
  else
    "text"

/-!  ### signature-builder -/

/-- `buildTypeParameterString`.  A parameter with neither constraint nor
default flows to `join(", ")` as the raw `name` value (which the join
coerces); otherwise the `+=` operations have already coerced it. -/
def buildTypeParameterString (fuel : Nat) (typeParams : Json) :
    Except JsErr String := do
  if !jsTruthy typeParams || jsLengthEqZero typeParams then pure ""
  else do
    let xs ← asArray typeParams
    let params ← xs.mapM fun tp => do
      let nm ← jsGet tp "name"
      if jsTruthy (getF tp "type") || jsTruthy (getF tp "default") then do
        let s1 ← if jsTruthy (getF tp "type") then do
            let t ← typeToString fuel (getF tp "type")
            pure (jsToStr nm ++ " extends " ++ t)
          else pure (jsToStr nm)
        let s2 ← if jsTruthy (getF tp "default") then do
            let d ← typeToString fuel (getF tp "default")
            pure (s1 ++ " = " ++ d)
          else pure s1
        pure (Json.str s2)
      else
        pure nm
    pure ("<" ++ String.intercalate ", " (params.map joinItem) ++ ">")

/-- The `.map` callback of `buildParameterString`: render one parameter as
`[...]name[?]: type[ = default]`. -/
def buildParameterStringItem (fuel : Nat) (param : Json) : Except JsErr String := do
  let fl ← jsGet param "flags"
  let s0 := if jsTruthy (optGet fl "isRest") then "..." else ""
  let s1 := s0 ++ jsToStr (getF param "name")
  let s2 := if jsTruthy (optGet (getF param "flags") "isOptional") then s1 ++ "?" else s1
  let t ← typeToString fuel (getF param "type")
  let s3 := s2 ++ ": " ++ t
  let s4 := if jsTruthy (getF param "defaultValue")
            then s3 ++ " = " ++ jsToStr (getF param "defaultValue") else s3
  pure s4

/-- `buildParameterString`. -/
def buildParameterString (fuel : Nat) (parameters : Json) :
    Except JsErr String := do
  if !jsTruthy parameters || jsLengthEqZero parameters then pure ""
  else do
    let xs ← asArray parameters
    let params ← xs.mapM (buildParameterStringItem fuel)
    pure (String.intercalate ", " params)

/-- `buildSignatureString`. -/
def buildSignatureString (fuel : Nat) (declaration signature : Json) :
    Except JsErr String := do
  let tps ← jsGet signature "typeParameters"
  let typeParamStr ← buildTypeParameterString fuel tps
  let paramStr ← buildParameterString fuel (getF signature "parameters")
  let returnType ← typeToString fuel (getF signature "type")
  let nm ← jsGet declaration "name"
  pure (jsToStr nm ++ typeParamStr ++ "(" ++ paramStr ++ "): " ++ returnType)

/-- The private `extractCommentParts` of the signature builder (no
inline-tag/code-span handling, unlike the comment parser's). -/
def sbExtractCommentParts (parts : Json) : Except JsErr String := do
  if !jsTruthy parts then pure ""
  else do
    let xs ← asArray parts
    let vs ← xs.mapM fun part => do
      let k ← jsGet part "kind"
      match k with
      | .str "text" => pure (getF part "text")
      | .str "code" => pure (Json.str ("`" ++ jsToStr (getF part "text") ++ "`"))
      | _ => pure (Json.str "")
    pure (String.join (vs.map joinItem))

/-!  ### Extracted record shapes (from `types.ts`)

Fields the source computes as strings are `String`/`Option String`; fields
it copies raw from the input keep type `Json` (TypeScript launders them
through `any`, so nothing constrains them at runtime). -/

/-- `TypeDefinition`. -/
structure TypeDefinition where
  type : String
  typeRaw : Json

/-- `TypeParameterDetail`. -/
structure TypeParameterDetail where
  name : Json
  constraint : Option TypeDefinition
  default : Option TypeDefinition
  description : Option String

/-- `ParameterDetail`. -/
structure ParameterDetail where
  name : Json
  kind : Json
  type : TypeDefinition
  description : Option String
  isOptional : Json
  isRest : Json
  defaultValue : Json

/-- Reference info for `overwrites` / `inheritedFrom` / `implementationOf`. -/
structure ReferenceDetail where
  name : Json
  id : Option String

/-- Return-type info of a signature. -/
structure ReturnTypeDetail where
  type : String
  typeRaw : Json
  description : Option String

/-- The `documentation` sub-object of a signature record. -/
structure SigDocumentation where
  summary : Option String
  description : Option String

/-- `SignatureDetail`. -/
structure SignatureDetail where
  name : Json
  kind : Json
  signature : String
  typeParameters : Option (List TypeParameterDetail)
  parameters : List ParameterDetail
  returnType : ReturnTypeDetail
  overwrites : Option ReferenceDetail
  inheritedFrom : Option ReferenceDetail
  implementationOf : Option ReferenceDetail
  documentation : SigDocumentation

/-- One `@example` entry. -/
structure ExampleDetail where
  text : String
  isCode : Bool
  language : String

/-- One `@returns` entry. -/
structure ReturnTagDetail where
  type : Option String
  typeRaw : Json
  description : String

/-- One `@param` entry. -/
structure ParamTagDetail where
  paramName : Json
  type : Option String
  typeRaw : Json
  description : String

/-- One `@typeParam` entry. -/
structure TypeParamTagDetail where
  paramName : Json
  description : String

/-- `TagsDetail`.  `customTags` is the dynamic string-keyed record
`Record<string, string[]>`, modelled as an insertion-ordered association
list. -/
structure TagsDetail where
  examples : List ExampleDetail
  examples_md : List String
  tutorials : List String
  seeTags : List String
  throwsTags : List String
  returnsTags : List ReturnTagDetail
  paramTags : List ParamTagDetail
  typeparamTags : List TypeParamTagDetail
  customTags : List (String × List String)

/-- `DocumentationDetail.deprecated`. -/
structure DeprecatedDetail where
  isDeprecated : Json
  message : Option String

/-- `DocumentationDetail`. -/
structure DocumentationDetail where
  summary : String
  description : String
  remarks : String
  deprecated : DeprecatedDetail
  license : Option String
  copyright : Option String
  author : List String
  since : Option String

/-- `TypeInformation`. -/
structure TypeInformation where
  type : Option String
  typeRaw : Json
  typeParameters : List TypeParameterDetail
  extendedTypes : Option (List String)
  implementedTypes : Option (List String)

/-- `HierarchyDetail`. -/
structure HierarchyDetail where
  parentId : Option String
  parentName : Option String
  parentKind : Option String
  childrenIds : Option (List (Option String))
  moduleId : Option String
  moduleName : Json

/-- `SourceInfo`. -/
structure SourceInfo where
  filename : Json
  lineStart : Json
  lineEnd : Json
  url : Json

/-- `ModifiersDetail`. -/
structure ModifiersDetail where
  isAbstract : Json
  isAsync : Json
  isConst : Json
  isReadonly : Json
  isOptional : Json
  isStatic : Json
  isPrivate : Json
  isProtected : Json
  isPublic : Json
  isExternal : Json

/-- `ExtractedDocumentation`, the normalized record for one declaration. -/
structure ExtractedDocumentation where
  id : String
  name : Json
  kind : Json
  fullPath : Json
  documentation : DocumentationDetail
  types : TypeInformation
  signatures : List SignatureDetail
  parameters : List ParameterDetail
  tags : TagsDetail
  hierarchy : HierarchyDetail
  source : SourceInfo
  modifiers : ModifiersDetail
  defaultValue : Json
  searchTokens : List Json
  rawJSON : Json

/-- The signature builder's private `buildParameters` (it renders
descriptions with its own comment extractor). -/
def buildParameters (fuel : Nat) (reflection : Json) :
    Except JsErr (List ParameterDetail) := do
  if !jsTruthy (getF reflection "parameters") then pure []
  else do
    let xs ← asArray (getF reflection "parameters")
    xs.mapM fun param => do
      let nm ← jsGet param "name"
      let ty ← if jsTruthy (getF param "type")
               then typeToString fuel (getF param "type") else pure "any"
      let desc ← if jsTruthy (optGet (getF param "comment") "summary")
                 then some <$> sbExtractCommentParts (optGet (getF param "comment") "summary")
                 else pure none
      pure { name := nm
             kind := getF param "kind"
             type := ⟨ty, getF param "type"⟩
             description := desc
             isOptional := jsOr (optGet (getF param "flags") "isOptional") (.bool false)
             isRest := jsOr (optGet (getF param "flags") "isRest") (.bool false)
             defaultValue := getF param "defaultValue" }

/-- `buildGetSetSignature`. -/
def buildGetSetSignature (fuel : Nat) (sig : Json) (type : String) :
    Except JsErr SignatureDetail := do
  let returnType ← typeToString fuel (getF sig "type")
  let signature := if type == "getter"
                   then "get property(): " ++ returnType
                   else "set property(value: " ++ returnType ++ "): void"
  let params ← if type == "setter" then buildParameters fuel sig else pure []
  let summary ← if jsTruthy (optGet (getF sig "comment") "summary")
                then some <$> sbExtractCommentParts (optGet (getF sig "comment") "summary")
                else pure none
  pure { name := .str type
         kind := .str (if type == "getter" then "GetSignature" else "SetSignature")
         signature := signature
         typeParameters := none
         parameters := params
         returnType := ⟨if type == "getter" then returnType else "void", getF sig "type", none⟩
         overwrites := none
         inheritedFrom := none
         implementationOf := none
         documentation := ⟨summary, none⟩ }

/-- `buildIndexSignatureString`. -/
def buildIndexSignatureString (fuel : Nat) (indexSig : Json) :
    Except JsErr String := do
  let ps ← asArray (getF indexSig "parameters")
  let params ← ps.mapM fun p => do
    let nm ← jsGet p "name"
    let t ← typeToString fuel (getF p "type")
    pure (jsToStr nm ++ ": " ++ t)
  let returnType ← typeToString fuel (getF indexSig "type")
  pure ("[" ++ String.intercalate ", " params ++ "]: " ++ returnType)

/-!  ### extractor -/

/-- `extractDocumentation`. -/
def extractDocumentation (reflection : Json) :
    Except JsErr DocumentationDetail := do
  let comment := jsOr (getF reflection "comment") (.obj [])
  let summary ← extractCommentParts (getF comment "summary")
  let description ← extractCommentParts (getF comment "description")
  let remarks ← extractCommentParts (getF comment "remarks")
  let message ← if jsTruthy (getF comment "deprecated")
                then some <$> extractCommentParts (getF comment "deprecated")
                else pure none
  let license ← if jsTruthy (getF comment "license")
                then some <$> extractCommentParts (getF comment "license")
                else pure none
  let copyright ← if jsTruthy (getF comment "copyright")
                  then some <$> extractCommentParts (getF comment "copyright")
                  else pure none
  let author ← extractAuthorTags comment
  let since ← if jsTruthy (getF comment "since")
              then some <$> extractCommentParts (getF comment "since")
              else pure none
  pure { summary := summary
         description := description
         remarks := remarks
         deprecated := ⟨jsOr (optGet (getF reflection "flags") "isDeprecated") (.bool false),
                        message⟩
         license := license
         copyright := copyright
         author := author
         since := since }

/-- `extractTypeParameters`. -/
def extractTypeParameters (fuel : Nat) (typeParams : Json) :
    Except JsErr (List TypeParameterDetail) := do
  if !jsTruthy typeParams then pure []
  else do
    let xs ← asArray typeParams
    xs.mapM fun tp => do
      let nm ← jsGet tp "name"
      let constraint ← if jsTruthy (getF tp "type") then do
          let t ← typeToString fuel (getF tp "type")
          pure (some (⟨t, getF tp "type"⟩ : TypeDefinition))
        else pure none
      let dflt ← if jsTruthy (getF tp "default") then do
          let t ← typeToString fuel (getF tp "default")
          pure (some (⟨t, getF tp "default"⟩ : TypeDefinition))
        else pure none
      let desc ← if jsTruthy (optGet (getF tp "comment") "summary")
                 then some <$> extractCommentParts (optGet (getF tp "comment") "summary")
                 else pure none
      pure { name := nm, constraint := constraint, default := dflt, description := desc }

/-- `extractTypeInformation`. -/
def extractTypeInformation (fuel : Nat) (reflection : Json) :
    Except JsErr TypeInformation := do
  let ty ← if jsTruthy (getF reflection "type")
           then some <$> typeToString fuel (getF reflection "type")
           else pure none
  let tps ← extractTypeParameters fuel (getF reflection "typeParameters")
  let ext ← match getF reflection "extendedTypes" with
    | .null => pure none
    | .undef => pure none
    | v => do
      let xs ← asArray v
      some <$> xs.mapM (typeToString fuel)
  let impl ← match getF reflection "implementedTypes" with
    | .null => pure none
    | .undef => pure none
    | v => do
      let xs ← asArray v
      some <$> xs.mapM (typeToString fuel)
  pure { type := ty
         typeRaw := getF reflection "type"
         typeParameters := tps
         extendedTypes := ext
         implementedTypes := impl }

/-- `extractParameters` (the extractor's own copy; descriptions go through
the comment parser's renderer). -/
def extractParameters (fuel : Nat) (reflection : Json) :
    Except JsErr (List ParameterDetail) := do
  if !jsTruthy (getF reflection "parameters") then pure []
  else do
    let xs ← asArray (getF reflection "parameters")
    xs.mapM fun param => do
      let nm ← jsGet param "name"
      let ty ← if jsTruthy (getF param "type")
               then typeToString fuel (getF param "type") else pure "any"
      let desc ← if jsTruthy (optGet (getF param "comment") "summary")
                 then some <$> extractCommentParts (optGet (getF param "comment") "summary")
                 else pure none
      pure { name := nm
             kind := getF param "kind"
             type := ⟨ty, getF param "type"⟩
             description := desc
             isOptional := jsOr (optGet (getF param "flags") "isOptional") (.bool false)
             isRest := jsOr (optGet (getF param "flags") "isRest") (.bool false)
             defaultValue := getF param "defaultValue" }

/-- `resolveTypeName` (the `project` argument is never read). -/
def resolveTypeName (typeRef : Json) : Json :=
  jsOr (getF typeRef "name") (.str "unknown")

/-- `id?.toString()` on a field value. -/
def optIdToString (v : Json) : Option String :=
  match v with
  | .null => none
  | .undef => none
  | v => some (jsToStr v)

/-- `extractSignatures`. -/
def extractSignatures (fuel : Nat) (reflection : Json) :
    Except JsErr (List SignatureDetail) := do
  let overloads ← if jsTruthy (getF reflection "signatures") then do
      let ss ← jsIterate (getF reflection "signatures")
      ss.mapM fun sig => do
        let nm ← jsGet sig "name"
        let sigStr ← buildSignatureString fuel reflection sig
        let tps ← extractTypeParameters fuel (getF sig "typeParameters")
        let params ← extractParameters fuel sig
        let rt ← if jsTruthy (getF sig "type")
                 then typeToString fuel (getF sig "type") else pure "void"
        let rtDesc ← if jsTruthy (optGet (getF sig "comment") "summary")
                     then some <$> extractCommentParts (optGet (getF sig "comment") "summary")
                     else pure none
        let overwrites :=
          if jsTruthy (getF sig "overwrites") then
            some (⟨resolveTypeName (getF sig "overwrites"),
                   optIdToString (getF (getF sig "overwrites") "id")⟩ : ReferenceDetail)
          else none
        let inheritedFrom :=
          if jsTruthy (getF sig "inheritedFrom") then
            some (⟨resolveTypeName (getF sig "inheritedFrom"),
                   optIdToString (getF (getF sig "inheritedFrom") "id")⟩ : ReferenceDetail)
          else none
        let implementationOf :=
          if jsTruthy (getF sig "implementationOf") then
            some (⟨resolveTypeName (getF sig "implementationOf"),
                   optIdToString (getF (getF sig "implementationOf") "id")⟩ : ReferenceDetail)
          else none
        let docSummary ← if jsTruthy (optGet (getF sig "comment") "summary")
                         then some <$> extractCommentParts (optGet (getF sig "comment") "summary")
                         else pure none
        let docDescription ← if jsTruthy (optGet (getF sig "comment") "description")
                             then some <$> extractCommentParts (optGet (getF sig "comment") "description")
                             else pure none
        pure { name := nm
               kind := getF sig "kind"
               signature := sigStr
               typeParameters := some tps
               parameters := params
               returnType := ⟨rt, getF sig "type", rtDesc⟩
               overwrites := overwrites
               inheritedFrom := inheritedFrom
               implementationOf := implementationOf
               documentation := ⟨docSummary, docDescription⟩ }
    else pure []
  let getters ← if jsTruthy (getF reflection "getSignature") then do
      let g ← buildGetSetSignature fuel (getF reflection "getSignature") "getter"
      pure [g]
    else pure []
  let setters ← if jsTruthy (getF reflection "setSignature") then do
      let s ← buildGetSetSignature fuel (getF reflection "setSignature") "setter"
      pure [s]
    else pure []
  let indexSigs ← if jsTruthy (getF reflection "indexSignatures") then do
      let ss ← jsIterate (getF reflection "indexSignatures")
      ss.mapM fun indexSig => do
        let sigStr ← buildIndexSignatureString fuel indexSig
        let params ← extractParameters fuel indexSig
        let rt ← typeToString fuel (getF indexSig "type")
        let summary ← if jsTruthy (optGet (getF indexSig "comment") "summary")
                      then some <$> extractCommentParts (optGet (getF indexSig "comment") "summary")
                      else pure none
        pure { name := Json.str "__index"
               kind := getF indexSig "kind"
               signature := sigStr
               typeParameters := none
               parameters := params
               returnType := ⟨rt, getF indexSig "type", none⟩
               overwrites := none
               inheritedFrom := none
               implementationOf := none
               documentation := (⟨summary, none⟩ : SigDocumentation) }
    else pure []
  pure (overloads ++ getters ++ setters ++ indexSigs)

/-- Append `v` to the list at key `k` of a string-keyed record, creating the
key at the end on first use (JS object insertion order). -/
def recPush (m : List (String × List String)) (k : String) (v : String) :
    List (String × List String) :=
  match m with
  | [] => [(k, [v])]
  | (k', vs) :: rest =>
    if k' == k then (k', vs ++ [v]) :: rest else (k', vs) :: recPush rest k v

/-- The empty `TagsDetail` the extractor starts from. -/
def emptyTags : TagsDetail :=
  ⟨[], [], [], [], [], [], [], [], []⟩

/-- `extractAllTags`.  The `switch` recognizes the listed tag names; every
other tag name lands in the dynamic `customTags` record under its literal
tag text (`String(tag.tag)` as property key). -/
def extractAllTags (fuel : Nat) (reflection : Json) : Except JsErr TagsDetail := do
  let comment := jsOr (getF reflection "comment") (.obj [])
  if !jsTruthy (getF comment "blockTags") then pure emptyTags
  else do
    let ts ← jsIterate (getF comment "blockTags")
    ts.foldlM (fun tags tag => do
      let tg ← jsGet tag "tag"
      let custom : String → Except JsErr TagsDetail := fun key => do
        let content ← extractCommentParts (getF tag "content")
        pure { tags with customTags := recPush tags.customTags key content }
      match tg with
      | .str t =>
        if t == "@example" then do
          let text ← extractCommentParts (getF tag "content")
          let codeBlocks := extractCodeBlocks text
          pure { tags with
                 examples := tags.examples ++
                   [⟨text, isCodeExample text, detectLanguage text⟩]
                 examples_md := tags.examples_md ++ codeBlocks }
        else if t == "@tutorial" || t == "@tutorials" then do
          let c ← extractCommentParts (getF tag "content")
          pure { tags with tutorials := tags.tutorials ++ [c] }
        else if t == "@see" then do
          let c ← extractCommentParts (getF tag "content")
          pure { tags with seeTags := tags.seeTags ++ [c] }
        else if t == "@throws" || t == "@throw" then do
          let c ← extractCommentParts (getF tag "content")
          pure { tags with throwsTags := tags.throwsTags ++ [c] }
        else if t == "@returns" || t == "@return" then do
          let ty ← if jsTruthy (getF tag "typeExpression")
                   then some <$> typeToString fuel (getF tag "typeExpression")
                   else pure none
          let c ← extractCommentParts (getF tag "content")
          pure { tags with returnsTags := tags.returnsTags ++
                   [⟨ty, getF tag "typeExpression", c⟩] }
        else if t == "@param" then do
          let ty ← if jsTruthy (getF tag "typeExpression")
                   then some <$> typeToString fuel (getF tag "typeExpression")
                   else pure none
          let c ← extractCommentParts (getF tag "content")
          pure { tags with paramTags := tags.paramTags ++
                   [⟨getF tag "name", ty, getF tag "typeExpression", c⟩] }
        else if t == "@typeParam" || t == "@template" then do
          let c ← extractCommentParts (getF tag "content")
          pure { tags with typeparamTags := tags.typeparamTags ++
                   [⟨getF tag "name", c⟩] }
        else
          custom t
      | _ => custom (jsToStr tg)) emptyTags

/-- `extractModifiers`. -/
def extractModifiers (reflection : Json) : ModifiersDetail :=
  let flags := jsOr (getF reflection "flags") (.obj [])
  { isAbstract := getF flags "isAbstract"
    isAsync := getF flags "isAsync"
    isConst := getF flags "isConst"
    isReadonly := getF flags "isReadonly"
    isOptional := getF flags "isOptional"
    isStatic := getF flags "isStatic"
    isPrivate := getF flags "isPrivate"
    isProtected := getF flags "isProtected"
    isPublic := getF flags "isPublic"
    isExternal := getF flags "isExternal" }

/-- `extractSourceInfo` (`reflection.sources?.[0]` with optional chains). -/
def extractSourceInfo (reflection : Json) : SourceInfo :=
  let sources := getF reflection "sources"
  let source := if nonNullish sources then jsIndex sources 0 else .undef
  { filename := jsOr (optGet source "fileName") (.str "unknown")
    lineStart := optGet source "line"
    lineEnd := optGet source "character"
    url := optGet source "url" }

/-- `getReflectionName` (a stub in the source). -/
def getReflectionName (_id _project : Json) : String :=
  "unknown"

/-- `getReflectionKind` (a stub in the source). -/
def getReflectionKind (_id _project : Json) : String :=
  "unknown"

/-- `extractHierarchy`. -/
def extractHierarchy (reflection project : Json) : Except JsErr HierarchyDetail := do
  let parent := getF reflection "parent"
  let childrenIds ← match getF reflection "children" with
    | .null => pure none
    | .undef => pure none
    | v => do
      let xs ← asArray v
      let ids ← xs.mapM fun c => do
        let cid ← jsGet c "id"
        pure (optIdToString cid)
      pure (some ids)
  let m := getF reflection "module"
  pure { parentId := optIdToString parent
         parentName := if jsTruthy parent then some (getReflectionName parent project) else none
         parentKind := if jsTruthy parent then some (getReflectionKind parent project) else none
         childrenIds := childrenIds
         moduleId := optIdToString (optGet m "id")
         moduleName := optGet m "name" }

/-- The `forEach` body of `generateSearchTokens`: an `@example` or
`@tutorial` tag pushes the first five whitespace-split tokens of its
rendered text. -/
def searchTokenStep (acc : List Json) (tag : Json) : Except JsErr (List Json) := do
  let tg ← jsGet tag "tag"
  if tg == .str "@example" || tg == .str "@tutorial" then do
    let text ← extractCommentParts (getF tag "content")
    pure (acc ++ ((jsSplitWs text).take 5).map Json.str)
  else pure acc

/-- `generateSearchTokens` from the extractor: name, full path and kind,
the first ten summary tokens, five per example/tutorial tag, then the
truthiness-and-length filter. -/
def generateSearchTokens (reflection : Json) (fullPath : Json) :
    Except JsErr (List Json) := do
  let nm ← jsGet reflection "name"
  let tokens0 := [nm, fullPath, getF reflection "kind"]
  let doc ← extractDocumentation reflection
  let summaryTokens := (jsSplitWs doc.summary).take 10
  let tokens1 := tokens0 ++ summaryTokens.map Json.str
  let bt := optGet (getF reflection "comment") "blockTags"
  let tokens2 ← if jsTruthy bt then do
      let xs ← asArray bt
      xs.foldlM searchTokenStep tokens1
    else pure tokens1
  pure (tokens2.filter fun t => jsTruthy t && jsLengthGtZero t)

/-- `extractAllDocumentation`: the full record for one reflection.  The
first property read is `reflection.name` (for the full path), so a nullish
reflection throws immediately; a missing `id` throws at `id.toString()`. -/
def extractAllDocumentation (fuel : Nat) (reflection project : Json) (path : Json) :
    Except JsErr ExtractedDocumentation := do
  let nm ← jsGet reflection "name"
  let fullPath := if jsTruthy path
                  then Json.str (jsToStr path ++ "." ++ jsToStr nm)
                  else nm
  let idv ← jsGet reflection "id"
  let id ← jsToStringMethod idv
  let documentation ← extractDocumentation reflection
  let types ← extractTypeInformation fuel reflection
  let signatures ← extractSignatures fuel reflection
  let parameters ← extractParameters fuel reflection
  let tags ← extractAllTags fuel reflection
  let hierarchy ← extractHierarchy reflection project
  let source := extractSourceInfo reflection
  let modifiers := extractModifiers reflection
  let searchTokens ← generateSearchTokens reflection fullPath
  pure { id := id
         name := getF reflection "name"
         kind := getF reflection "kind"
         fullPath := fullPath
         documentation := documentation
         types := types
         signatures := signatures
         parameters := parameters
         tags := tags
         hierarchy := hierarchy
         source := source
         modifiers := modifiers
         defaultValue := getF reflection "defaultValue"
         searchTokens := searchTokens
         rawJSON := reflection }

/-!  ### processor: tree walk and search index -/

/-- The mutable state of one processing run: the record collection
`this.allDocs` and the warnings emitted by the per-node `catch`. -/
structure WalkState where
  docs : List ExtractedDocumentation
  warns : List (String × JsErr)

/-- Result of a (sub)walk: normal completion, or an exception escaping the
walk (possible when the `catch` block itself throws); in both cases the
side effects performed so far are retained. -/
inductive WalkResult where
  | ok : WalkState → WalkResult
  | thrown : JsErr → WalkState → WalkResult

/-- `processReflections`: depth-first, pre-order walk.  For each node the
`try` block extracts a record, pushes it, and recurses into the children
(when `children && children.length > 0`); the `catch` block reports a
warning built from `reflection.name` — reading that property can itself
throw, which escapes the walk.  An error thrown inside the child recursion
is caught at this node's level.  `efuel` is the renderer fuel handed to
every extraction; `fuel` bounds the walk itself (one unit per visited node,
a structural-recursion artifact of the embedding). -/
def processReflections (efuel : Nat) :
    Nat → List Json → Json → Json → WalkState → WalkResult
  | _, [], _, _, s => .ok s
  | 0, _ :: _, _, _, s => .thrown .outOfFuel s
  | fuel + 1, reflection :: rest, project, parentPath, s =>
    match extractAllDocumentation efuel reflection project parentPath with
    | .error e =>
      -- catch: console.warn with `reflection.name`
      match jsGet reflection "name" with
      | .ok nm =>
        processReflections efuel fuel rest project parentPath
          ⟨s.docs, s.warns ++ [(jsToStr nm, e)]⟩
      | .error e2 => .thrown e2 s
    | .ok doc =>
      let s1 : WalkState := ⟨s.docs ++ [doc], s.warns⟩
      let children := getF reflection "children"
      if jsTruthy children && jsLengthGtZero children then
        match jsIterate children with
        | .error e =>
          -- thrown inside the try block, caught here: warn and continue
          match jsGet reflection "name" with
          | .ok nm =>
            processReflections efuel fuel rest project parentPath
              ⟨s1.docs, s1.warns ++ [(jsToStr nm, e)]⟩
          | .error e2 => .thrown e2 s1
        | .ok cs =>
          match processReflections efuel fuel cs project doc.fullPath s1 with
          | .ok s2 => processReflections efuel fuel rest project parentPath s2
          | .thrown e s2 =>
            -- caught by this node's catch
            match jsGet reflection "name" with
            | .ok nm =>
              processReflections efuel fuel rest project parentPath
                ⟨s2.docs, s2.warns ++ [(jsToStr nm, e)]⟩
            | .error e2 => .thrown e2 s2
      else
        processReflections efuel fuel rest project parentPath s1

/-- A value stored in the search index: a summary object under an `id:`
key, a bare id string under a `path:` key, or an id list under a `token:`
key. -/
inductive IndexValue where
  | entry : Json → Json → Json → IndexValue
  | idRef : String → IndexValue
  | ids : List String → IndexValue

/-- Truthiness of a stored index value (`!index[key]`): the only falsy case
is an empty string stored under a `path:` key. -/
def indexValTruthy : IndexValue → Bool
  | .entry _ _ _ => true
  | .idRef s => !(s == "")
  | .ids _ => true

/-- The search index: a JS object keyed by strings, in insertion order. -/
def SearchIndex := List (String × IndexValue)

/-- Assignment `index[k] = v`: overwrite in place, or append a new key. -/
def indexSet : List (String × IndexValue) → String → IndexValue →
    List (String × IndexValue)
  | [], k, v => [(k, v)]
  | (k', v') :: rest, k, v =>
    if k' == k then (k', v) :: rest else (k', v') :: indexSet rest k v

/-- Key lookup `index[k]`. -/
def lookupIdx : List (String × IndexValue) → String → Option IndexValue
  | [], _ => none
  | (k', v) :: rest, k => if k' == k then some v else lookupIdx rest k

/-- The token loop of `buildSearchIndex` for one record:
`index[key].push(doc.id)` after creating an empty array for a missing or
falsy entry; pushing onto a non-array value throws. -/
def indexTokens (docId : String) : List Json → List (String × IndexValue) →
    Except JsErr (List (String × IndexValue))
  | [], idx => .ok idx
  | tok :: rest, idx => do
    let low ← jsToLowerCase tok
    let key := "token:" ++ low
    let idx' ← match lookupIdx idx key with
      | none => pure (indexSet idx key (.ids [docId]))
      | some v =>
        if indexValTruthy v then
          match v with
          | .ids l => pure (indexSet idx key (.ids (l ++ [docId])))
          | _ => .error .typeError
        else
          pure (indexSet idx key (.ids [docId]))
    indexTokens docId rest idx'

/-- The per-record step of `buildSearchIndex`. -/
def buildSearchIndexStep (idx : List (String × IndexValue))
    (doc : ExtractedDocumentation) : Except JsErr (List (String × IndexValue)) := do
  let idx1 := indexSet idx ("id:" ++ doc.id) (.entry doc.name doc.kind doc.fullPath)
  let idx2 := indexSet idx1 ("path:" ++ jsToStr doc.fullPath) (.idRef doc.id)
  indexTokens doc.id doc.searchTokens idx2

/-- The loop of `buildSearchIndex` over the record collection. -/
def buildSearchIndexGo : List ExtractedDocumentation →
    List (String × IndexValue) → Except JsErr (List (String × IndexValue))
  | [], idx => .ok idx
  | doc :: rest, idx => do
    let idx' ← buildSearchIndexStep idx doc
    buildSearchIndexGo rest idx'

/-- `buildSearchIndex`: the derived lookup index over the collected
records. -/
def buildSearchIndex (docs : List ExtractedDocumentation) :
    Except JsErr (List (String × IndexValue)) :=
  buildSearchIndexGo docs []

/-!  ### Generic lemmas about the embedding -/

@[simp] theorem exbind_ok {α β : Type} (a : α) (f : α → Except JsErr β) :
    (Except.ok a : Except JsErr α) >>= f = f a := rfl

@[simp] theorem exbind_error {α β : Type} (e : JsErr) (f : α → Except JsErr β) :
    (Except.error e : Except JsErr α) >>= f = Except.error e := rfl

@[simp] theorem exmap_ok {α β : Type} (a : α) (f : α → β) :
    f <$> (Except.ok a : Except JsErr α) = Except.ok (f a) := rfl

@[simp] theorem exmap_error {α β : Type} (e : JsErr) (f : α → β) :
    f <$> (Except.error e : Except JsErr α) = Except.error e := rfl

@[simp] theorem expure_eq_ok {α : Type} (a : α) :
    (pure a : Except JsErr α) = Except.ok a := rfl

/-- A non-`undefined` property read forces the receiver to be an object. -/
theorem getF_ne_undef {j : Json} {k : String} (h : ¬ getF j k = .undef) :
    ∃ fs, j = .obj fs := by
  cases j <;> simp [getF] at h ⊢

/-- `jsGet` on a non-nullish receiver is plain field lookup. -/
theorem jsGet_nonNullish {j : Json} (k : String) (h : nonNullish j = true) :
    jsGet j k = .ok (getF j k) := by
  cases j <;> simp_all [jsGet, nonNullish]

/-!  ### C10 — string inputs -/

/-- C10 counterexample: the claim says `typeToString` is the identity on
every plain-string input, but the empty string is falsy in JavaScript, so
the absent-input guard fires first and renders it as "any". -/
theorem c10_counterexample :
    typeToString 1 (.str "") = .ok "any" ∧ "any" ≠ "" :=
  ⟨rfl, by decide⟩

/-- C10 amended: `typeToString` returns every nonempty plain-string input
unchanged; the empty string falls under the falsy-input rule and renders as
"any". -/
theorem c10_amended (fuel : Nat) (s : String) (h : s ≠ "") :
    typeToString (fuel + 1) (.str s) = .ok s := by
  simp [typeToString, jsTruthy, h]

/-- C10 witness: the amended theorem applied at the nonempty string
"SomeType". -/
theorem c10_amended_witness :
    typeToString 1 (.str "SomeType") = .ok "SomeType" :=
  c10_amended 0 "SomeType" (by decide)

/-!  ### C8 — fallback for unrecognized tags -/

/-- The tags the renderer's `switch` recognizes, in source order. -/
def recognizedTypeTags : List String :=
  ["intrinsic", "reference", "array", "union", "intersection", "literal",
   "tuple", "namedTupleMember", "reflection", "optional", "rest",
   "conditional", "inferred", "indexedAccess", "mapped", "typeOperator",
   "query", "templateLiteral", "predicate"]

/-- The `switch` default: a node whose string tag is recognized by no case
renders as its truthy name (coerced) or "unknown". -/
theorem typeToString_default (fuel : Nat) (j : Json) (tag : String)
    (h : getF j "type" = .str tag) (hmem : tag ∉ recognizedTypeTags) :
    typeToString (fuel + 1) j = .ok (jsOrToStr (getF j "name") "unknown") := by
  obtain ⟨fs, rfl⟩ := getF_ne_undef (j := j) (k := "type") (by simp [h])
  simp only [recognizedTypeTags, List.mem_cons, List.not_mem_nil, or_false, not_or] at hmem
  obtain ⟨e1, e2, e3, e4, e5, e6, e7, e8, e9, e10, e11, e12, e13, e14, e15, e16, e17, e18, e19⟩ :=
    hmem
  simp [typeToString, h, jsTruthy,
    beq_eq_false_iff_ne.mpr e1, beq_eq_false_iff_ne.mpr e2, beq_eq_false_iff_ne.mpr e3,
    beq_eq_false_iff_ne.mpr e4, beq_eq_false_iff_ne.mpr e5, beq_eq_false_iff_ne.mpr e6,
    beq_eq_false_iff_ne.mpr e7, beq_eq_false_iff_ne.mpr e8, beq_eq_false_iff_ne.mpr e9,
    beq_eq_false_iff_ne.mpr e10, beq_eq_false_iff_ne.mpr e11, beq_eq_false_iff_ne.mpr e12,
    beq_eq_false_iff_ne.mpr e13, beq_eq_false_iff_ne.mpr e14, beq_eq_false_iff_ne.mpr e15,
    beq_eq_false_iff_ne.mpr e16, beq_eq_false_iff_ne.mpr e17, beq_eq_false_iff_ne.mpr e18,
    beq_eq_false_iff_ne.mpr e19]

/-- C8 counterexample: a node with an unrecognized tag whose `name` field is
present but empty renders as "unknown", not as its (present) name — the
source tests `type.name || "unknown"`, i.e. truthiness, not presence. -/
theorem c8_counterexample :
    typeToString 1 (.obj [("type", .str "mystery"), ("name", .str "")]) = .ok "unknown" ∧
    getF (.obj [("type", .str "mystery"), ("name", .str "")]) "name" = .str "" ∧
    "unknown" ≠ "" :=
  ⟨rfl, rfl, by decide⟩

/-- C8 amended: an absent/undefined input renders as "any", and a node
whose string tag is outside the recognized set renders as its name field
coerced to a string when that field is truthy (in particular nonempty), and
as "unknown" otherwise. -/
theorem c8_amended :
    (∀ fuel : Nat, typeToString (fuel + 1) .undef = .ok "any") ∧
    (∀ (fuel : Nat) (j : Json) (tag : String),
      getF j "type" = .str tag → tag ∉ recognizedTypeTags →
      typeToString (fuel + 1) j = .ok (jsOrToStr (getF j "name") "unknown")) :=
  ⟨fun _ => rfl, fun fuel j tag h hmem => typeToString_default fuel j tag h hmem⟩

/-- C8 witness: the amended theorem applied to the undefined input and to a
concrete node tagged "customTag" named "Foo". -/
theorem c8_amended_witness :
    typeToString 1 .undef = .ok "any" ∧
    typeToString 1 (.obj [("type", .str "customTag"), ("name", .str "Foo")]) = .ok "Foo" :=
  ⟨c8_amended.1 0,
   c8_amended.2 0 (.obj [("type", .str "customTag"), ("name", .str "Foo")]) "customTag"
     rfl (by decide)⟩

/-!  ### C6 — union / intersection rendering -/

/-- Intrinsic type node named "A". -/
def tyA : Json := .obj [("type", .str "intrinsic"), ("name", .str "A")]

/-- Intrinsic type node named "B". -/
def tyB : Json := .obj [("type", .str "intrinsic"), ("name", .str "B")]

/-- C6: a union (resp. intersection) node with a member list renders as the
members' renders joined with " | " (resp. " & ") in source order — no
sorting, no deduplication; in particular `[A, B, A]` renders as
"A | B | A" with both occurrences of A kept. -/
theorem c6_union_intersection_order :
    (∀ (fuel : Nat) (j : Json) (ts : List Json) (rs : List String),
      getF j "type" = .str "union" → getF j "types" = .arr ts →
      ts.mapM (typeToString fuel) = .ok rs →
      typeToString (fuel + 1) j = .ok (String.intercalate " | " rs)) ∧
    (∀ (fuel : Nat) (j : Json) (ts : List Json) (rs : List String),
      getF j "type" = .str "intersection" → getF j "types" = .arr ts →
      ts.mapM (typeToString fuel) = .ok rs →
      typeToString (fuel + 1) j = .ok (String.intercalate " & " rs)) ∧
    typeToString 2 (.obj [("type", .str "union"), ("types", .arr [tyA, tyB, tyA])]) =
      .ok "A | B | A" := by
  refine ⟨?_, ?_, rfl⟩
  · intro fuel j ts rs h1 h2 h3
    obtain ⟨fs, rfl⟩ := getF_ne_undef (j := j) (k := "type") (by simp [h1])
    have h3l : List.mapM.loop (typeToString fuel) ts [] = Except.ok rs := h3
    simp [typeToString, h1, h2, h3l, jsTruthy, asArray]
  · intro fuel j ts rs h1 h2 h3
    obtain ⟨fs, rfl⟩ := getF_ne_undef (j := j) (k := "type") (by simp [h1])
    have h3l : List.mapM.loop (typeToString fuel) ts [] = Except.ok rs := h3
    simp [typeToString, h1, h2, h3l, jsTruthy, asArray]

/-- C6 witness: the general union and intersection parts applied to
concrete two-member nodes. -/
theorem c6_witness :
    typeToString 2 (.obj [("type", .str "union"), ("types", .arr [tyB, tyA])]) =
      .ok "B | A" ∧
    typeToString 2 (.obj [("type", .str "intersection"), ("types", .arr [tyA, tyB])]) =
      .ok "A & B" :=
  ⟨c6_union_intersection_order.1 1 _ [tyB, tyA] ["B", "A"] rfl rfl rfl,
   c6_union_intersection_order.2.1 1 _ [tyA, tyB] ["A", "B"] rfl rfl rfl⟩

/-!  ### C4 — signature building -/

/-- Modelled from the spec's words (§4.3): one parameter of a signature,
described structurally — rest flag, name, optional flag, a type expression
with its expected render, and an optional default text. -/
structure SpecParam where
  isRest : Bool
  isOptional : Bool
  name : String
  ty : Json
  tyStr : String
  dflt : Option String

/-- Modelled from the spec's words (§4.3): one parameter renders as
`[...]name[?]: type[ = default]`, each clause only if set, in that fixed
order. -/
def specParamRender (p : SpecParam) : String :=
  (if p.isRest then "..." else "") ++ p.name ++ (if p.isOptional then "?" else "") ++
  ": " ++ p.tyStr ++ (match p.dflt with | some d => " = " ++ d | none => "")

/-- The TypeDoc-shaped parameter node a `SpecParam` describes. -/
def mkParam (p : SpecParam) : Json :=
  .obj [("name", .str p.name),
        ("flags", .obj [("isRest", .bool p.isRest), ("isOptional", .bool p.isOptional)]),
        ("type", p.ty),
        ("defaultValue", match p.dflt with | some d => .str d | none => .undef)]

/-- A signature node with the given parameters and return type and no type
parameters. -/
def mkSignatureNode (ps : List SpecParam) (retTy : Json) : Json :=
  .obj [("parameters", .arr (ps.map mkParam)), ("type", retTy)]

/-- The parameter-clause loop body applied to one structurally described
parameter yields the spec's rendering. -/
theorem buildParameterStringItem_spec (fuel : Nat) (p : SpecParam)
    (hty : typeToString fuel p.ty = .ok p.tyStr) (hd : p.dflt ≠ some "") :
    buildParameterStringItem fuel (mkParam p) = Except.ok (specParamRender p) := by
  have hty' : typeToString fuel (getF (mkParam p) "type") = .ok p.tyStr := by
    simpa [mkParam, getF, fieldLookup] using hty
  cases hdf : p.dflt with
  | none =>
    simp [buildParameterStringItem, mkParam, jsGet, getF, fieldLookup, optGet, jsTruthy,
      hty, hty', hdf, specParamRender, jsToStr]
    cases p.isRest <;> cases p.isOptional <;> simp [String.append_assoc]
  | some d =>
    have hde : ¬ d = "" := fun hc => hd (by rw [hdf, hc])
    simp [buildParameterStringItem, mkParam, jsGet, getF, fieldLookup, optGet, jsTruthy,
      hty, hty', hdf, specParamRender, jsToStr, hde]
    cases p.isRest <;> cases p.isOptional <;> simp [String.append_assoc]

/-- Mapping a monadic renderer over a mapped list succeeds elementwise. -/
theorem mapM_map_ok {α β γ : Type} (f : β → Except JsErr γ) (m : α → β) (g : α → γ) :
    ∀ xs : List α, (∀ x ∈ xs, f (m x) = .ok (g x)) →
      List.mapM f (xs.map m) = .ok (xs.map g) := by
  intro xs h
  induction xs with
  | nil => rfl
  | cons x xs ih =>
    rw [List.map_cons, List.map_cons, List.mapM_cons, h x (by simp),
      ih fun y hy => h y (by simp [hy])]
    rfl

/-- The parameter clause over a structurally described list is the
comma-join of the per-parameter spec renders. -/
theorem buildParameterString_spec (fuel : Nat) (ps : List SpecParam)
    (hty : ∀ p ∈ ps, typeToString fuel p.ty = .ok p.tyStr)
    (hd : ∀ p ∈ ps, p.dflt ≠ some "") :
    buildParameterString fuel (.arr (ps.map mkParam)) =
      .ok (String.intercalate ", " (ps.map specParamRender)) := by
  have hm : List.mapM (buildParameterStringItem fuel) (ps.map mkParam) =
      .ok (ps.map specParamRender) :=
    mapM_map_ok _ mkParam specParamRender ps fun p hp =>
      buildParameterStringItem_spec fuel p (hty p hp) (hd p hp)
  cases ps with
  | nil => rfl
  | cons p rest =>
    have hml : List.mapM.loop (buildParameterStringItem fuel)
        (mkParam p :: List.map mkParam rest) [] =
        Except.ok (List.map specParamRender (p :: rest)) := hm
    simp only [buildParameterString, jsTruthy, jsLengthEqZero, lengthVal, asArray,
      List.map_cons, List.length_cons] at *
    simp [hml]
    intro h
    omega

/-- The concrete signature node of the spec's example:
one parameter `x : number`, return type `void`, no type parameters. -/
def exampleParamX : SpecParam :=
  ⟨false, false, "x", .obj [("type", .str "intrinsic"), ("name", .str "number")], "number", none⟩

/-- C4: `buildSignatureString` produces
`"{name}{typeParams}({params}): {returnType}"`; the parameter clause is
empty for an absent or empty list and otherwise comma-joins
`[...]name[?]: type[ = default]` per parameter in that fixed order; in
particular `f` with one parameter `x : number` and return type `void`
yields "f(x: number): void". -/
theorem c4_signature_formula :
    (∀ fuel : Nat,
      buildParameterString fuel .undef = .ok "" ∧
      buildParameterString fuel (.arr []) = .ok "") ∧
    (∀ (fuel : Nat) (dn : String) (ps : List SpecParam) (retTy : Json) (rt : String),
      typeToString fuel retTy = .ok rt →
      (∀ p ∈ ps, typeToString fuel p.ty = .ok p.tyStr) →
      (∀ p ∈ ps, p.dflt ≠ some "") →
      buildSignatureString fuel (.obj [("name", .str dn)]) (mkSignatureNode ps retTy) =
        .ok (dn ++ "(" ++ String.intercalate ", " (ps.map specParamRender) ++ "): " ++ rt)) ∧
    buildSignatureString 2 (.obj [("name", .str "f")])
      (mkSignatureNode [exampleParamX] (.obj [("type", .str "intrinsic"), ("name", .str "void")])) =
      .ok "f(x: number): void" := by
  refine ⟨fun fuel => ⟨rfl, rfl⟩, ?_, rfl⟩
  intro fuel dn ps retTy rt hret hty hd
  have hps := buildParameterString_spec fuel ps hty hd
  have hretF : typeToString fuel (getF (mkSignatureNode ps retTy) "type") = .ok rt := by
    simpa [mkSignatureNode, getF, fieldLookup] using hret
  have hpsF : buildParameterString fuel (getF (mkSignatureNode ps retTy) "parameters") =
      .ok (String.intercalate ", " (ps.map specParamRender)) := by
    simpa [mkSignatureNode, getF, fieldLookup] using hps
  simp [buildSignatureString, mkSignatureNode, jsGet, getF, fieldLookup, jsToStr,
    hretF, hpsF, hret, hps, buildTypeParameterString, jsTruthy, String.append_assoc]

/-- C4 witness: the general part applied to a declaration named "g" with a
rest parameter and an optional parameter. -/
theorem c4_witness :
    buildSignatureString 2 (.obj [("name", .str "g")])
      (mkSignatureNode
        [⟨false, true, "a", .obj [("type", .str "intrinsic"), ("name", .str "string")], "string", none⟩,
         ⟨true, false, "bs", .obj [("type", .str "intrinsic"), ("name", .str "number")], "number", none⟩]
        (.obj [("type", .str "intrinsic"), ("name", .str "void")])) =
      .ok "g(a?: string, ...bs: number): void" :=
  c4_signature_formula.2.1 2 "g" _ _ "void" rfl
    (by intro p hp; simp only [List.mem_cons, List.not_mem_nil, or_false] at hp
        rcases hp with rfl | rfl <;> rfl)
    (by intro p hp; simp only [List.mem_cons, List.not_mem_nil, or_false] at hp
        rcases hp with rfl | rfl <;> simp)

/-!  ### C9 — default return type disagreement -/

/-- C9: for an overload signature node without a `type` field, the record
stores `returnType.type = "void"` (the extractor's ternary default) while
its `signature` string — built by `buildSignatureString`, which renders the
missing type via `typeToString` — ends in ": any".  The two fields of one
record disagree about the defaulted return type. -/
theorem c9_return_type_disagreement (fuel : Nat) (dn sn : String) (k : Int) :
    ∃ sd : SignatureDetail,
      extractSignatures (fuel + 1)
        (.obj [("name", .str dn),
               ("signatures", .arr [.obj [("name", .str sn), ("kind", .num k)]])]) =
        .ok [sd] ∧
      sd.returnType.type = "void" ∧
      sd.signature = dn ++ "(): any" ∧ "void" ≠ "any" := by
  refine ⟨⟨.str sn, .num k, ((((dn ++ "") ++ "(") ++ "") ++ "): ") ++ "any",
           some [], [], ⟨"void", .undef, none⟩,
           none, none, none, ⟨none, none⟩⟩, rfl, rfl, ?_, by decide⟩
  simp [String.append_assoc]

/-!  ### C5 — tag categorization -/

/-- The block-tag names the categorizer's `switch` recognizes. -/
def knownBlockTags : List String :=
  ["@example", "@tutorial", "@tutorials", "@see", "@throws", "@throw",
   "@returns", "@return", "@param", "@typeParam", "@template"]

/-- C5: a `@param` block tag lands in `paramTags` keyed by the tag's
`name`, and a tag with any name outside the recognized set lands in the
dynamic `customTags` mapping under its literal tag name, its rendered
content appended to that key's list. -/
theorem c5_tag_categorization (fuel : Nat) (tname : String)
    (hmem : tname ∉ knownBlockTags) (pname : String) (c1 c2 : Json) (r1 r2 : String)
    (hc1 : extractCommentParts c1 = .ok r1) (hc2 : extractCommentParts c2 = .ok r2) :
    extractAllTags fuel
      (.obj [("comment", .obj [("blockTags", .arr
        [.obj [("tag", .str "@param"), ("name", .str pname), ("content", c1)],
         .obj [("tag", .str tname), ("content", c2)]])])]) =
      .ok ⟨[], [], [], [], [], [], [⟨.str pname, none, .undef, r1⟩], [],
           [(tname, [r2])]⟩ := by
  simp only [knownBlockTags, List.mem_cons, List.not_mem_nil, or_false, not_or] at hmem
  obtain ⟨e1, e2, e3, e4, e5, e6, e7, e8, e9, e10, e11⟩ := hmem
  simp [extractAllTags, jsOr, jsGet, getF, fieldLookup, jsTruthy, jsIterate,
    hc1, hc2, emptyTags, recPush,
    e1, e2, e3, e4, e5, e6, e7, e8, e9, e10, e11]

/-- C5 witness: a comment with a `@param x` tag and a `@custom` tag, each
with one plain text part. -/
theorem c5_witness :
    extractAllTags 1
      (.obj [("comment", .obj [("blockTags", .arr
        [.obj [("tag", .str "@param"), ("name", .str "x"),
               ("content", .arr [.obj [("kind", .str "text"), ("text", .str "the x")]])],
         .obj [("tag", .str "@custom"),
               ("content", .arr [.obj [("kind", .str "text"), ("text", .str "hi")]])]])])]) =
      .ok ⟨[], [], [], [], [], [], [⟨.str "x", none, .undef, "the x"⟩], [],
           [("@custom", ["hi"])]⟩ :=
  c5_tag_categorization 1 "@custom" (by decide) "x" _ _ "the x" "hi" rfl rfl


/-!  ### C7 — search-token derivation -/

/-- A monadic map succeeds when it succeeds elementwise. -/
theorem mapM_exists_ok {α β : Type} (f : α → Except JsErr β) :
    ∀ xs : List α, (∀ x ∈ xs, ∃ y, f x = .ok y) →
      ∃ ys, List.mapM f xs = .ok ys := by
  intro xs h
  induction xs with
  | nil => exact ⟨[], rfl⟩
  | cons x xs ih =>
    obtain ⟨y, hy⟩ := h x (by simp)
    obtain ⟨ys, hys⟩ := ih fun z hz => h z (by simp [hz])
    exact ⟨y :: ys, by rw [List.mapM_cons, hy, hys]; rfl⟩

/-- A block tag described structurally: tag name, content parts, and the
expected render of the content. -/
def mkBlockTag (t : String × Json × String) : Json :=
  .obj [("tag", .str t.1), ("content", t.2.1)]

/-- Modelled from the spec's words (§4.4): the search tokens one
`@example`/`@tutorial` block tag contributes — the first five
whitespace-separated tokens of its rendered text; other tags contribute
none. -/
def specTagTokens (t : String × Json × String) : List String :=
  if t.1 = "@example" ∨ t.1 = "@tutorial" then (jsSplitWs t.2.2).take 5 else []

/-- The reflection node of the C7 scenario: a name, a kind, a comment with
summary parts and a structurally described block-tag list. -/
def c7Node (nm kd : String) (sparts : Json) (tags : List (String × Json × String)) : Json :=
  .obj [("name", .str nm), ("kind", .str kd),
        ("comment", .obj [("summary", sparts), ("blockTags", .arr (tags.map mkBlockTag))])]

/-- `extractAuthorTags` succeeds on any structurally described tag list. -/
theorem extractAuthorTags_ok (sparts : Json) (tags : List (String × Json × String))
    (ht : ∀ t ∈ tags, extractCommentParts t.2.1 = .ok t.2.2) :
    ∃ as_, extractAuthorTags (.obj [("summary", sparts),
        ("blockTags", .arr (tags.map mkBlockTag))]) = .ok as_ := by
  have htag : List.mapM (fun t => do
        let tg ← jsGet t "tag"
        pure (t, tg)) (tags.map mkBlockTag) =
      .ok (tags.map fun t => (mkBlockTag t, Json.str t.1)) :=
    mapM_map_ok _ mkBlockTag _ tags fun t _ => rfl
  obtain ⟨rs, hrs⟩ := mapM_exists_ok
    (fun p => extractCommentParts (getF p.1 "content"))
    ((tags.map fun t => (mkBlockTag t, Json.str t.1)).filter fun p => p.2 == .str "@author")
    (by
      intro p hp
      obtain ⟨t, htm, rfl⟩ := List.mem_map.mp (List.mem_filter.mp hp).1
      exact ⟨t.2.2, by simpa [mkBlockTag, getF, fieldLookup] using ht t htm⟩)
  refine ⟨rs, ?_⟩
  have hbt : getF (.obj [("summary", sparts), ("blockTags", .arr (tags.map mkBlockTag))])
      "blockTags" = .arr (tags.map mkBlockTag) := rfl
  have htagl : List.mapM.loop (fun t => do
        let tg ← jsGet t "tag"
        Except.ok (t, tg)) (tags.map mkBlockTag) [] =
      Except.ok (tags.map fun t => (mkBlockTag t, Json.str t.1)) := htag
  have hrsl : List.mapM.loop (fun p => extractCommentParts (getF p.1 "content"))
      (List.filter (fun p => p.2 == Json.str "@author")
        (tags.map fun t => (mkBlockTag t, Json.str t.1))) [] = Except.ok rs := hrs
  simp [extractAuthorTags, hbt, jsTruthy, asArray, htagl, hrsl]

/-- `extractDocumentation` on the C7 node yields the rendered summary. -/
theorem extractDocumentation_c7 (nm kd : String) (sparts : Json) (s : String)
    (hs : extractCommentParts sparts = .ok s)
    (tags : List (String × Json × String))
    (ht : ∀ t ∈ tags, extractCommentParts t.2.1 = .ok t.2.2) :
    ∃ doc, extractDocumentation (c7Node nm kd sparts tags) = .ok doc ∧ doc.summary = s := by
  obtain ⟨as_, has⟩ := extractAuthorTags_ok sparts tags ht
  refine ⟨⟨s, "", "", ⟨.bool false, none⟩, none, none, as_, none⟩, ?_, rfl⟩
  have hu : extractCommentParts Json.undef = Except.ok "" := rfl
  simp [extractDocumentation, c7Node, jsOr, getF, fieldLookup, jsTruthy, optGet,
    hs, has, hu]

/-- The `BEq` on `Json` compares string atoms by string equality. -/
@[simp] theorem json_beq_str (a b : String) :
    (Json.str a == Json.str b) = (a == b) := rfl

/-- The `forEach` over a structurally described block-tag list appends the
per-tag token contributions in order. -/
theorem searchTokenFold_spec :
    ∀ (tags : List (String × Json × String)) (acc : List Json),
      (∀ t ∈ tags, extractCommentParts t.2.1 = .ok t.2.2) →
      (tags.map mkBlockTag).foldlM searchTokenStep acc =
        .ok (acc ++ tags.flatMap fun t => (specTagTokens t).map Json.str) := by
  intro tags
  induction tags with
  | nil => intro acc _; simp
  | cons t rest ih =>
    intro acc h
    have hstep : searchTokenStep acc (mkBlockTag t) =
        .ok (acc ++ (specTagTokens t).map Json.str) := by
      by_cases h1 : t.1 = "@example" ∨ t.1 = "@tutorial"
      · rcases h1 with h1 | h1 <;>
          simp [searchTokenStep, mkBlockTag, jsGet, getF, fieldLookup, h1,
            h t (by simp), specTagTokens]
      · push_neg at h1
        simp [searchTokenStep, mkBlockTag, jsGet, getF, fieldLookup, specTagTokens,
          beq_eq_false_iff_ne.mpr h1.1, beq_eq_false_iff_ne.mpr h1.2, h1.1, h1.2]
    rw [List.map_cons, List.foldlM_cons, hstep]
    simp only [exbind_ok]
    rw [ih _ fun z hz => h z (by simp [hz])]
    simp [List.append_assoc]

/-- On string tokens, the source's filter `t && t.length > 0` keeps exactly
the nonempty strings. -/
theorem filter_str_tokens :
    ∀ xs : List String,
      (xs.map Json.str).filter (fun t => jsTruthy t && jsLengthGtZero t) =
        (xs.filter (· ≠ "")).map Json.str := by
  intro xs
  induction xs with
  | nil => rfl
  | cons x rest ih =>
    by_cases hx : x = ""
    · subst hx
      have hcond : (jsTruthy (Json.str "") && jsLengthGtZero (Json.str "")) = false := rfl
      simp only [List.map_cons, List.filter_cons, hcond]
      simp only [ne_eq, not_true_eq_false, decide_False, Bool.false_eq_true, if_false]
      exact ih
    · have hlen : 0 < x.length := by
        cases x with
        | mk data =>
          cases data with
          | nil => exact absurd rfl hx
          | cons c cs => simp [String.length]
      have hcond : (jsTruthy (Json.str x) && jsLengthGtZero (Json.str x)) = true := by
        simp [jsTruthy, jsLengthGtZero, jsGtZero, jsToNumber, lengthVal,
          beq_eq_false_iff_ne.mpr hx]
        exact_mod_cast hlen
      simp only [List.map_cons, List.filter_cons, hcond, if_true]
      simp only [ne_eq, hx, not_false_eq_true, decide_True, if_true, List.map_cons]
      rw [ih]

/-- C7: the derived search-token list is, in order: the node's name, its
full path, its kind, the first ten whitespace-separated tokens of its
rendered summary, then for each `@example`/`@tutorial` block tag the first
five whitespace-separated tokens of its rendered text — with empty tokens
filtered out and no deduplication or case-folding applied. -/
theorem c7_search_tokens (nm kd fp : String) (sparts : Json) (s : String)
    (hs : extractCommentParts sparts = .ok s)
    (tags : List (String × Json × String))
    (ht : ∀ t ∈ tags, extractCommentParts t.2.1 = .ok t.2.2) :
    generateSearchTokens (c7Node nm kd sparts tags) (.str fp) =
      .ok (((nm :: fp :: kd :: ((jsSplitWs s).take 10 ++ tags.flatMap specTagTokens)).filter
        (· ≠ "")).map Json.str) := by
  obtain ⟨doc, hdoc, hsum⟩ := extractDocumentation_c7 nm kd sparts s hs tags ht
  have hn : jsGet (c7Node nm kd sparts tags) "name" = .ok (.str nm) := rfl
  have hk : getF (c7Node nm kd sparts tags) "kind" = .str kd := rfl
  have hcm : optGet (getF (c7Node nm kd sparts tags) "comment") "blockTags" =
      .arr (tags.map mkBlockTag) := rfl
  have hbt : jsTruthy (Json.arr (tags.map mkBlockTag)) = true := rfl
  have hlist : Json.str nm :: Json.str fp :: Json.str kd ::
      (((jsSplitWs s).take 10).map Json.str ++
        tags.flatMap fun t => (specTagTokens t).map Json.str) =
      (nm :: fp :: kd :: ((jsSplitWs s).take 10 ++ tags.flatMap specTagTokens)).map Json.str := by
    simp [List.map_flatMap]
  simp only [generateSearchTokens, hn, hk, hcm, hbt, asArray, hdoc, hsum,
    exbind_ok, expure_eq_ok, if_true, List.cons_append, List.nil_append]
  rw [searchTokenFold_spec tags _ ht]
  simp only [exbind_ok, expure_eq_ok, List.cons_append, List.nil_append]
  rw [hlist, filter_str_tokens]

/-- C7 witness: a node named "add" with a three-word summary, one
`@example` tag with a six-word text, and one unrecognized tag. -/
theorem c7_witness :
    generateSearchTokens
      (c7Node "add" "Function"
        (.arr [.obj [("kind", .str "text"), ("text", .str "Adds a b")]])
        [("@example",
          .arr [.obj [("kind", .str "text"), ("text", .str "use add now ok yes please")]],
          "use add now ok yes please"),
         ("@other", .arr [.obj [("kind", .str "text"), ("text", .str "zzz")]], "zzz")])
      (.str "m.add") =
      .ok (["add", "m.add", "Function", "Adds", "a", "b",
            "use", "add", "now", "ok", "yes"].map Json.str) :=
  c7_search_tokens "add" "Function" "m.add"
    (.arr [.obj [("kind", .str "text"), ("text", .str "Adds a b")]]) "Adds a b" rfl
    [("@example",
      .arr [.obj [("kind", .str "text"), ("text", .str "use add now ok yes please")]],
      "use add now ok yes please"),
     ("@other", .arr [.obj [("kind", .str "text"), ("text", .str "zzz")]], "zzz")]
    (by
      intro t htm
      simp only [List.mem_cons, List.not_mem_nil, or_false] at htm
      rcases htm with rfl | rfl <;> rfl)

/-!  ### C2 — tree-walk fault isolation -/

/-- A nonempty array passes the `children && children.length > 0` guard. -/
theorem guard_arr_nonempty {cs : List Json} (h : cs ≠ []) :
    (jsTruthy (Json.arr cs) && jsLengthGtZero (Json.arr cs)) = true := by
  have : 0 < cs.length := List.length_pos.mpr h
  simp [jsTruthy, jsLengthGtZero, jsGtZero, jsToNumber, lengthVal]
  exact_mod_cast this

/-- C2 amended, general form: in a three-sibling forest where the second
node's extraction throws (and the node is readable enough for the warning),
the walk records the first node, emits exactly one warning naming the
second, records the third, and continues into the third's children — the
whole walk equals the child walk started from that state. -/
theorem c2_amended (efuel fuel : Nat) (project path : Json) (s : WalkState)
    (r1 r2 r3 : Json) (d1 d3 : ExtractedDocumentation) (e : JsErr) (nm : Json)
    (cs : List Json) (s3 : WalkState)
    (hx1 : extractAllDocumentation efuel r1 project path = .ok d1)
    (hc1 : jsTruthy (getF r1 "children") = false)
    (hx2 : extractAllDocumentation efuel r2 project path = .error e)
    (hn2 : jsGet r2 "name" = .ok nm)
    (hx3 : extractAllDocumentation efuel r3 project path = .ok d3)
    (hc3 : getF r3 "children" = .arr cs)
    (hcs : cs ≠ [])
    (hrec : processReflections efuel fuel cs project d3.fullPath
        ⟨s.docs ++ [d1, d3], s.warns ++ [(jsToStr nm, e)]⟩ = .ok s3) :
    processReflections efuel (fuel + 1 + 1 + 1) [r1, r2, r3] project path s = .ok s3 := by
  simp only [processReflections, hx1, hc1, Bool.false_and, Bool.false_eq_true, if_false]
  simp only [processReflections, hx2, hn2]
  simp only [processReflections, hx3, hc3, guard_arr_nonempty hcs, if_true, jsIterate]
  simp only [List.append_assoc, List.cons_append, List.nil_append] at hrec ⊢
  simp only [hrec]

/-- Witness node: a minimal extractable reflection named "a". -/
def c2wr1 : Json := .obj [("id", .num 1), ("name", .str "a"), ("kind", .str "Function")]

/-- Witness node: a reflection without `id`, so extraction throws at
`reflection.id.toString()`. -/
def c2wr2 : Json := .obj [("name", .str "b")]

/-- Witness node: the child of the third sibling. -/
def c2wChild : Json := .obj [("id", .num 4), ("name", .str "d")]

/-- Witness node: the third sibling, with one child. -/
def c2wr3 : Json := .obj [("id", .num 3), ("name", .str "c"), ("kind", .str "Function"),
  ("children", .arr [c2wChild])]

/-- The record extracted for `c2wr1`. -/
def c2wd1 : ExtractedDocumentation :=
  { id := "1", name := .str "a", kind := .str "Function", fullPath := .str "a"
    documentation := ⟨"", "", "", ⟨.bool false, none⟩, none, none, [], none⟩
    types := ⟨none, .undef, [], none, none⟩
    signatures := [], parameters := []
    tags := ⟨[], [], [], [], [], [], [], [], []⟩
    hierarchy := ⟨none, none, none, none, none, .undef⟩
    source := ⟨.str "unknown", .undef, .undef, .undef⟩
    modifiers := ⟨.undef, .undef, .undef, .undef, .undef, .undef, .undef, .undef, .undef, .undef⟩
    defaultValue := .undef
    searchTokens := [.str "a", .str "a", .str "Function"]
    rawJSON := c2wr1 }

/-- The record extracted for `c2wr3`. -/
def c2wd3 : ExtractedDocumentation :=
  { id := "3", name := .str "c", kind := .str "Function", fullPath := .str "c"
    documentation := ⟨"", "", "", ⟨.bool false, none⟩, none, none, [], none⟩
    types := ⟨none, .undef, [], none, none⟩
    signatures := [], parameters := []
    tags := ⟨[], [], [], [], [], [], [], [], []⟩
    hierarchy := ⟨none, none, none, some [some "4"], none, .undef⟩
    source := ⟨.str "unknown", .undef, .undef, .undef⟩
    modifiers := ⟨.undef, .undef, .undef, .undef, .undef, .undef, .undef, .undef, .undef, .undef⟩
    defaultValue := .undef
    searchTokens := [.str "c", .str "c", .str "Function"]
    rawJSON := c2wr3 }

/-- The record extracted for `c2wChild` under parent path "c". -/
def c2wd4 : ExtractedDocumentation :=
  { id := "4", name := .str "d", kind := .undef, fullPath := .str "c.d"
    documentation := ⟨"", "", "", ⟨.bool false, none⟩, none, none, [], none⟩
    types := ⟨none, .undef, [], none, none⟩
    signatures := [], parameters := []
    tags := ⟨[], [], [], [], [], [], [], [], []⟩
    hierarchy := ⟨none, none, none, none, none, .undef⟩
    source := ⟨.str "unknown", .undef, .undef, .undef⟩
    modifiers := ⟨.undef, .undef, .undef, .undef, .undef, .undef, .undef, .undef, .undef, .undef⟩
    defaultValue := .undef
    searchTokens := [.str "d", .str "c.d"]
    rawJSON := c2wChild }

/-- C2 witness: the amended theorem applied to the concrete three-sibling
forest — the walk collects the first and third records and the third's
child, in order, with one warning naming "b". -/
theorem c2_amended_witness :
    processReflections 1 (1 + 1 + 1 + 1) [c2wr1, c2wr2, c2wr3] (.obj []) (.str "")
      ⟨[], []⟩ = .ok ⟨[c2wd1, c2wd3, c2wd4], [("b", .typeError)]⟩ :=
  c2_amended 1 1 (.obj []) (.str "") ⟨[], []⟩ c2wr1 c2wr2 c2wr3 c2wd1 c2wd3
    .typeError (.str "b") [c2wChild] ⟨[c2wd1, c2wd3, c2wd4], [("b", .typeError)]⟩
    rfl rfl rfl rfl rfl rfl (by simp) rfl

/-- C2 counterexample: with a `null` second sibling, extraction throws, the
`catch` block's own read of `reflection.name` throws in turn, and the walk
aborts — only the first record is collected and no warning is reported, so
the walk does not continue with the third sibling as the claim states. -/
theorem c2_counterexample :
    processReflections 1 9 [c2wr1, .null, c2wr3] (.obj []) (.str "") ⟨[], []⟩ =
      .thrown .typeError ⟨[c2wd1], []⟩ := rfl

/-!  ### C3 — the search index -/

/-- Whether a stored search token matches the (lowercased) token key `t`. -/
def tokenMatches (tok : Json) (t : String) : Bool :=
  match tok with
  | .str s => jsStrToLower s == t
  | _ => false

/-- The ids one record appends under the token key `t`: one occurrence per
matching token in its list. -/
def occList (toks : List Json) (docId : String) (t : String) : List String :=
  (toks.filter (tokenMatches · t)).map fun _ => docId

/-- Modelled from the spec's words (§6): the ordered id list under a token
key — each record contributes in processing order, once per occurrence of
the token among its search tokens. -/
def tokenOccurrences (docs : List ExtractedDocumentation) (t : String) : List String :=
  docs.flatMap fun d => occList d.searchTokens d.id t

/-- The id list currently stored under the token key `t` (empty when the
key is absent). -/
def tokView (idx : List (String × IndexValue)) (t : String) : List String :=
  match lookupIdx idx ("token:" ++ t) with
  | some (.ids l) => l
  | _ => []

/-- Invariant: every `token:` key stores a nonempty id list (or is absent). -/
def tokInv (idx : List (String × IndexValue)) : Prop :=
  ∀ t, lookupIdx idx ("token:" ++ t) =
    if tokView idx t = [] then none else some (.ids (tokView idx t))

/-- Lookup after assignment. -/
theorem lookupIdx_indexSet (idx : List (String × IndexValue)) (k : String)
    (v : IndexValue) (k2 : String) :
    lookupIdx (indexSet idx k v) k2 = if k2 = k then some v else lookupIdx idx k2 := by
  induction idx with
  | nil =>
    by_cases h : k2 = k
    · subst h; simp [indexSet, lookupIdx]
    · simp [indexSet, lookupIdx, beq_eq_false_iff_ne.mpr (fun hc : k = k2 => h hc.symm), h]
  | cons p rest ih =>
    obtain ⟨k', v'⟩ := p
    by_cases h1 : k' = k
    · subst h1
      by_cases h2 : k2 = k'
      · subst h2; simp [indexSet, lookupIdx]
      · simp [indexSet, lookupIdx,
          beq_eq_false_iff_ne.mpr (fun hc : k' = k2 => h2 hc.symm), h2]
    · by_cases h2 : k' = k2
      · subst h2
        simp [indexSet, lookupIdx, beq_eq_false_iff_ne.mpr h1, h1]
      · simp [indexSet, lookupIdx, beq_eq_false_iff_ne.mpr h1,
          beq_eq_false_iff_ne.mpr h2, ih]

/-- Keys with different literal prefixes never collide: `id:` vs `token:`. -/
theorem id_key_ne_token_key (a b : String) : ("id:" ++ a) ≠ ("token:" ++ b) := by
  intro h
  have hd := congrArg String.data h
  simp [String.data_append] at hd

/-- Keys with different literal prefixes never collide: `path:` vs `token:`. -/
theorem path_key_ne_token_key (a b : String) : ("path:" ++ a) ≠ ("token:" ++ b) := by
  intro h
  have hd := congrArg String.data h
  simp [String.data_append] at hd

/-- Keys with different literal prefixes never collide: `id:` vs `path:`. -/
theorem id_key_ne_path_key (a b : String) : ("id:" ++ a) ≠ ("path:" ++ b) := by
  intro h
  have hd := congrArg String.data h
  simp [String.data_append] at hd

/-- Appending to a fixed prefix is injective. -/
theorem key_append_cancel {p a b : String} (h : p ++ a = p ++ b) : a = b := by
  have hd := congrArg String.data h
  simp only [String.data_append] at hd
  have := List.append_cancel_left hd
  cases a; cases b; simp_all

/-- Effect of the token loop for one record: every `token:` key gains the
record's occurrence list, other keys are untouched, and the invariant is
preserved. -/
theorem indexTokens_spec :
    ∀ (toks : List Json) (idx : List (String × IndexValue)) (docId : String),
      (∀ tok ∈ toks, ∃ s, tok = .str s) → tokInv idx →
      ∃ idx2, indexTokens docId toks idx = .ok idx2 ∧ tokInv idx2 ∧
        (∀ key, (∀ t, key ≠ "token:" ++ t) → lookupIdx idx2 key = lookupIdx idx key) ∧
        (∀ t, tokView idx2 t = tokView idx t ++ occList toks docId t) := by
  intro toks
  induction toks with
  | nil =>
    intro idx docId _ hinv
    exact ⟨idx, rfl, hinv, fun _ _ => rfl, fun t => by simp [occList]⟩
  | cons tok rest ih =>
    intro idx docId hstr hinv
    obtain ⟨s, rfl⟩ := hstr tok (by simp)
    set key := "token:" ++ jsStrToLower s with hkey
    set idx' := indexSet idx key (.ids (tokView idx (jsStrToLower s) ++ [docId])) with hidxq
    have hlook : ∀ t, lookupIdx idx' ("token:" ++ t) =
        if t = jsStrToLower s then some (.ids (tokView idx (jsStrToLower s) ++ [docId]))
        else lookupIdx idx ("token:" ++ t) := by
      intro t
      rw [hidxq, lookupIdx_indexSet, hkey]
      by_cases h : t = jsStrToLower s
      · simp [h]
      · rw [if_neg (fun hc => h (key_append_cancel hc)), if_neg h]
    have hview : ∀ t, tokView idx' t =
        if t = jsStrToLower s then tokView idx (jsStrToLower s) ++ [docId] else tokView idx t := by
      intro t
      by_cases h : t = jsStrToLower s <;> simp [tokView, hlook, h]
    have hinv' : tokInv idx' := by
      intro t
      by_cases h : t = jsStrToLower s
      · simp [hlook, hview, h]
      · simp only [hlook, hview, if_neg h]
        exact hinv t
    have hstep : indexTokens docId (Json.str s :: rest) idx = indexTokens docId rest idx' := by
      have hcase := hinv (jsStrToLower s)
      by_cases hv : tokView idx (jsStrToLower s) = []
      · rw [if_pos hv] at hcase
        simp only [indexTokens, jsToLowerCase, exbind_ok, hcase, hidxq, hkey]
        rw [hv]
        simp
      · rw [if_neg hv] at hcase
        simp only [indexTokens, jsToLowerCase, exbind_ok, hcase, hidxq, hkey]
        simp [indexValTruthy]
    obtain ⟨idx2, hrun, hinv2, hpres, hview2⟩ := ih idx' docId
      (fun tok htm => hstr tok (by simp [htm])) hinv'
    refine ⟨idx2, by rw [hstep, hrun], hinv2, ?_, ?_⟩
    · intro k2 hk2
      rw [hpres k2 hk2, hidxq, lookupIdx_indexSet, if_neg (hk2 (jsStrToLower s))]
    · intro t
      rw [hview2 t, hview t]
      by_cases h : t = jsStrToLower s
      · subst h
        simp [occList, tokenMatches, List.filter_cons]
      · simp only [occList, tokenMatches, List.filter_cons,
          beq_eq_false_iff_ne.mpr (fun hc : jsStrToLower s = t => h hc.symm),
          Bool.false_eq_true, if_false, if_neg h]

/-- Effect of one record's indexing step on every key kind. -/
theorem buildSearchIndexStep_spec (idx : List (String × IndexValue))
    (d : ExtractedDocumentation)
    (hstr : ∀ tok ∈ d.searchTokens, ∃ s, tok = .str s) (hinv : tokInv idx) :
    ∃ idx2, buildSearchIndexStep idx d = .ok idx2 ∧ tokInv idx2 ∧
      (∀ i, lookupIdx idx2 ("id:" ++ i) =
        if i = d.id then some (.entry d.name d.kind d.fullPath)
        else lookupIdx idx ("id:" ++ i)) ∧
      (∀ p, lookupIdx idx2 ("path:" ++ p) =
        if p = jsToStr d.fullPath then some (.idRef d.id)
        else lookupIdx idx ("path:" ++ p)) ∧
      (∀ t, tokView idx2 t = tokView idx t ++ occList d.searchTokens d.id t) := by
  set idxA := indexSet idx ("id:" ++ d.id) (.entry d.name d.kind d.fullPath) with hA
  set idxB := indexSet idxA ("path:" ++ jsToStr d.fullPath) (.idRef d.id) with hB
  have hBtok : ∀ t, lookupIdx idxB ("token:" ++ t) = lookupIdx idx ("token:" ++ t) := by
    intro t
    rw [hB, lookupIdx_indexSet, if_neg (fun hc => path_key_ne_token_key _ _ hc.symm),
      hA, lookupIdx_indexSet, if_neg (fun hc => id_key_ne_token_key _ _ hc.symm)]
  have hBview : ∀ t, tokView idxB t = tokView idx t := by
    intro t; simp [tokView, hBtok]
  have hBinv : tokInv idxB := by
    intro t; rw [hBtok, hBview]; exact hinv t
  obtain ⟨idx2, hrun, hinv2, hpres, hview⟩ :=
    indexTokens_spec d.searchTokens idxB d.id hstr hBinv
  refine ⟨idx2, ?_, hinv2, ?_, ?_, ?_⟩
  · simp only [buildSearchIndexStep, ← hA, ← hB, hrun]
  · intro i
    rw [hpres _ (fun t => id_key_ne_token_key i t), hB, lookupIdx_indexSet,
      if_neg (fun hc => id_key_ne_path_key _ _ hc), hA, lookupIdx_indexSet]
    by_cases h : i = d.id
    · subst h; simp
    · rw [if_neg (fun hc => h (key_append_cancel hc)), if_neg h]
  · intro p
    rw [hpres _ (fun t => path_key_ne_token_key p t), hB, lookupIdx_indexSet]
    by_cases h2 : p = jsToStr d.fullPath
    · subst h2; simp
    · rw [if_neg (fun hc => h2 (key_append_cancel hc)), if_neg h2, hA,
        lookupIdx_indexSet, if_neg (fun hc => id_key_ne_path_key _ _ hc.symm)]
  · intro t
    rw [hview t, hBview t]

/-- The characterization of the whole indexing loop relative to a starting
index: later records overwrite earlier ones at `id:`/`path:` keys (hence
the reversed `find?`), and token keys accumulate occurrence lists in
processing order. -/
theorem buildSearchIndexGo_spec :
    ∀ (docs : List ExtractedDocumentation) (idx : List (String × IndexValue)),
      (∀ d ∈ docs, ∀ tok ∈ d.searchTokens, ∃ s, tok = .str s) → tokInv idx →
      ∃ idx2, buildSearchIndexGo docs idx = .ok idx2 ∧ tokInv idx2 ∧
        (∀ i, lookupIdx idx2 ("id:" ++ i) =
          match docs.reverse.find? (fun d => d.id == i) with
          | some d => some (.entry d.name d.kind d.fullPath)
          | none => lookupIdx idx ("id:" ++ i)) ∧
        (∀ p, lookupIdx idx2 ("path:" ++ p) =
          match docs.reverse.find? (fun d => jsToStr d.fullPath == p) with
          | some d => some (.idRef d.id)
          | none => lookupIdx idx ("path:" ++ p)) ∧
        (∀ t, tokView idx2 t = tokView idx t ++ tokenOccurrences docs t) := by
  intro docs
  induction docs with
  | nil =>
    intro idx _ hinv
    exact ⟨idx, rfl, hinv, fun i => rfl, fun p => rfl,
      fun t => by simp [tokenOccurrences]⟩
  | cons d rest ih =>
    intro idx hstr hinv
    obtain ⟨idx1, hstep, hinv1, hid1, hpath1, htok1⟩ :=
      buildSearchIndexStep_spec idx d (hstr d (by simp)) hinv
    obtain ⟨idx2, hrun, hinv2, hid2, hpath2, htok2⟩ :=
      ih idx1 (fun d' hd' => hstr d' (by simp [hd'])) hinv1
    refine ⟨idx2, ?_, hinv2, ?_, ?_, ?_⟩
    · simp only [buildSearchIndexGo, hstep, exbind_ok, hrun]
    · intro i
      rw [hid2 i]
      simp only [List.reverse_cons, List.find?_append]
      cases hf : rest.reverse.find? (fun d => d.id == i) with
      | some d' => simp [hf]
      | none =>
        simp only [hf, Option.none_or, List.find?_cons, List.find?_nil]
        rw [hid1 i]
        by_cases h : d.id = i
        · subst h; simp
        · simp [beq_eq_false_iff_ne.mpr h, if_neg (fun hc : i = d.id => h hc.symm)]
    · intro p
      rw [hpath2 p]
      simp only [List.reverse_cons, List.find?_append]
      cases hf : rest.reverse.find? (fun d => jsToStr d.fullPath == p) with
      | some d' => simp [hf]
      | none =>
        simp only [hf, Option.none_or, List.find?_cons, List.find?_nil]
        rw [hpath1 p]
        by_cases h : jsToStr d.fullPath = p
        · subst h; simp
        · simp [beq_eq_false_iff_ne.mpr h, if_neg (fun hc : p = jsToStr d.fullPath => h hc.symm)]
    · intro t
      rw [htok2 t, htok1 t]
      simp [tokenOccurrences, List.append_assoc]

/-- In a list with pairwise distinct keys, `find?` by a member's key
returns that member. -/
theorem find?_key_of_nodup {α : Type} (f : α → String) :
    ∀ L : List α, (L.map f).Nodup → ∀ d ∈ L, L.find? (fun x => f x == f d) = some d := by
  intro L
  induction L with
  | nil => intro _ d hd; cases hd
  | cons x rest ih =>
    intro hnd d hd
    rcases List.mem_cons.mp hd with rfl | hd'
    · simp [List.find?_cons]
    · have hne : f x ≠ f d := by
        intro hc
        have hmem : f d ∈ rest.map f := List.mem_map_of_mem f hd'
        rw [← hc] at hmem
        exact (List.nodup_cons.mp (by simpa using hnd)).1 hmem
      simp only [List.find?_cons, beq_eq_false_iff_ne.mpr hne]
      exact ih (List.nodup_cons.mp (by simpa using hnd)).2 d hd'

/-- C3 amended: the derived index maps `"id:" + id` to the record's
`{name, kind, fullPath}` summary and `"path:" + fullPath` to its id (ids
and paths being distinct across records), and maps `"token:" + t` to the
ordered list of ids collected one per occurrence of the token among each
record's search tokens, in record-processing order — so a record whose
token list repeats a token contributes its id repeatedly. -/
theorem c3_amended (docs : List ExtractedDocumentation)
    (hstr : ∀ d ∈ docs, ∀ tok ∈ d.searchTokens, ∃ s, tok = .str s)
    (hids : (docs.map fun d => d.id).Nodup)
    (hpaths : (docs.map fun d => jsToStr d.fullPath).Nodup) :
    ∃ idx, buildSearchIndex docs = .ok idx ∧
      (∀ d ∈ docs, lookupIdx idx ("id:" ++ d.id) =
        some (.entry d.name d.kind d.fullPath)) ∧
      (∀ d ∈ docs, lookupIdx idx ("path:" ++ jsToStr d.fullPath) =
        some (.idRef d.id)) ∧
      (∀ t, lookupIdx idx ("token:" ++ t) =
        if tokenOccurrences docs t = [] then none
        else some (.ids (tokenOccurrences docs t))) := by
  have hinv0 : tokInv ([] : List (String × IndexValue)) := by
    intro t; simp [lookupIdx, tokView]
  obtain ⟨idx, hrun, hinvI, hid, hpath, htok⟩ := buildSearchIndexGo_spec docs [] hstr hinv0
  refine ⟨idx, hrun, ?_, ?_, ?_⟩
  · intro d hd
    rw [hid d.id]
    have hf : docs.reverse.find? (fun x => x.id == d.id) = some d := by
      apply find?_key_of_nodup (fun x : ExtractedDocumentation => x.id)
      · rw [List.map_reverse]
        exact List.nodup_reverse.mpr hids
      · exact List.mem_reverse.mpr hd
    rw [hf]
  · intro d hd
    rw [hpath (jsToStr d.fullPath)]
    have hf : docs.reverse.find? (fun x => jsToStr x.fullPath == jsToStr d.fullPath) =
        some d := by
      apply find?_key_of_nodup (fun x : ExtractedDocumentation => jsToStr x.fullPath)
      · rw [List.map_reverse]
        exact List.nodup_reverse.mpr hpaths
      · exact List.mem_reverse.mpr hd
    rw [hf]
  · intro t
    have hv : tokView idx t = tokenOccurrences docs t := by
      rw [htok t]; rfl
    rw [hinvI t, hv]

/-- A record as extraction produces for a root node whose name equals its
full path: the search-token list repeats the token "foo". -/
def c3doc : ExtractedDocumentation :=
  { id := "1", name := .str "foo", kind := .str "Function", fullPath := .str "foo"
    documentation := ⟨"", "", "", ⟨.bool false, none⟩, none, none, [], none⟩
    types := ⟨none, .undef, [], none, none⟩
    signatures := [], parameters := []
    tags := ⟨[], [], [], [], [], [], [], [], []⟩
    hierarchy := ⟨none, none, none, none, none, .undef⟩
    source := ⟨.str "unknown", .undef, .undef, .undef⟩
    modifiers := ⟨.undef, .undef, .undef, .undef, .undef, .undef, .undef, .undef, .undef, .undef⟩
    defaultValue := .undef
    searchTokens := [.str "foo", .str "foo"]
    rawJSON := .obj [("id", .num 1), ("name", .str "foo")] }

/-- C3 counterexample: a record whose search tokens contain "foo" twice (a
root node's name equals its full path) makes the index store its id twice
under `token:foo`, which is not "the ordered list of ids of all records
containing that search token" — that list is just `["1"]`. -/
theorem c3_counterexample :
    buildSearchIndex [c3doc] =
      .ok [("id:1", .entry (.str "foo") (.str "Function") (.str "foo")),
           ("path:foo", .idRef "1"),
           ("token:foo", .ids ["1", "1"])] ∧
    (([c3doc].filter fun d => d.searchTokens.any fun tok => tokenMatches tok "foo").map
      fun d => d.id) = ["1"] ∧
    ["1", "1"] ≠ ["1"] :=
  ⟨rfl, rfl, by decide⟩

/-- First witness record for the amended C3 theorem. -/
def c3wA : ExtractedDocumentation :=
  { c3doc with id := "1", name := .str "alpha", fullPath := .str "alpha"
               kind := .str "Class"
               searchTokens := [.str "alpha", .str "Shared"] }

/-- Second witness record for the amended C3 theorem. -/
def c3wB : ExtractedDocumentation :=
  { c3doc with id := "2", name := .str "beta", fullPath := .str "alpha.beta"
               kind := .str "Class"
               searchTokens := [.str "beta", .str "shared"] }

/-- C3 witness: the amended theorem applied to a two-record collection
whose tokens "Shared" and "shared" share one lowercased token key. -/
theorem c3_amended_witness :
    ∃ idx, buildSearchIndex [c3wA, c3wB] = .ok idx ∧
      (∀ d ∈ [c3wA, c3wB], lookupIdx idx ("id:" ++ d.id) =
        some (.entry d.name d.kind d.fullPath)) ∧
      (∀ d ∈ [c3wA, c3wB], lookupIdx idx ("path:" ++ jsToStr d.fullPath) =
        some (.idRef d.id)) ∧
      (∀ t, lookupIdx idx ("token:" ++ t) =
        if tokenOccurrences [c3wA, c3wB] t = [] then none
        else some (.ids (tokenOccurrences [c3wA, c3wB] t))) :=
  c3_amended [c3wA, c3wB]
    (by
      intro d hd tok ht
      simp only [List.mem_cons, List.not_mem_nil, or_false] at hd
      rcases hd with rfl | rfl <;>
        · simp only [c3wA, c3wB, c3doc, List.mem_cons, List.not_mem_nil, or_false] at ht
          rcases ht with rfl | rfl <;> exact ⟨_, rfl⟩)
    (by decide)
    (by decide)

/-!  ### C1 — totality of the renderer -/

/-- C1 counterexample: a `templateLiteral` node missing its `tail` does not
degrade to a fallback string — iterating `undefined` throws a `TypeError`
(fuel 2 rules out the fuel artifact). -/
theorem c1_counterexample :
    typeToString 2 (.obj [("type", .str "templateLiteral"), ("head", .str "a")]) =
      .error .typeError := rfl

/-- A value of array shape. -/
def isArr : Json → Bool
  | .arr _ => true
  | _ => false

/-- A length value on which the JS comparison `length > 0` is definitely
false, independent of numeric-string parsing: absent, `null`, `false`, the
empty string, or a non-positive number. -/
def lengthFalsy : Json → Bool
  | .null => true
  | .undef => true
  | .bool b => !b
  | .num n => decide (n ≤ 0)
  | .str s => s == ""
  | _ => false

/-- Well-formedness of a `reference` node's `typeArguments`: an actual
array, or a value on which the `typeArguments && typeArguments.length > 0`
guard definitely fails — falsy, or carrying a definitely non-positive
length value — so `.map` is never called on it. -/
def refArgsOK (v : Json) : Bool :=
  isArr v || !jsTruthy v || lengthFalsy (lengthVal v)

/-- Well-formedness of a call signature's `parameters`: absent, or an array
of non-nullish entries (each entry's `name` is read with a plain property
access). -/
def paramsOK : Json → Bool
  | .null => true
  | .undef => true
  | .arr xs => xs.all nonNullish
  | _ => false

/-- Well-formedness of a `reflection` node's `declaration`. -/
def reflOK (d : Json) : Bool :=
  if !jsTruthy d then true
  else if jsTruthy (getF d "children") then
    match getF d "children" with
    | .arr xs => xs.all nonNullish
    | _ => false
  else if jsTruthy (getF d "signatures") then
    match getF d "signatures" with
    | .arr (s0 :: _) => nonNullish s0 && paramsOK (getF s0 "parameters")
    | _ => false
  else true

/-- Well-formedness of a `templateLiteral` node's `tail`: a list of pairs
(each destructured with `[tailType, tailStr]`). -/
def tailOK : Json → Bool
  | .arr xs => xs.all isArr
  | _ => false

/-- The per-node shape conditions under which the renderer cannot throw:
the recognized tags that call an array method or destructure a field
require that field to have the right shape. -/
def nodeOK (j : Json) : Bool :=
  match getF j "type" with
  | .str tag =>
    if tag == "reference" then refArgsOK (getF j "typeArguments")
    else if tag == "union" then isArr (getF j "types")
    else if tag == "intersection" then isArr (getF j "types")
    else if tag == "tuple" then isArr (getF j "elements")
    else if tag == "reflection" then reflOK (getF j "declaration")
    else if tag == "templateLiteral" then tailOK (getF j "tail")
    else true
  | _ => true

mutual
/-- Hereditary well-formedness: every object in the tree satisfies the
shape conditions of its tag. -/
def wf : Json → Bool
  | .obj fs => nodeOK (.obj fs) && wfFields fs
  | .arr xs => wfList xs
  | _ => true

/-- Well-formedness of all field values. -/
def wfFields : List (String × Json) → Bool
  | [] => true
  | (_, v) :: rest => wf v && wfFields rest

/-- Well-formedness of all list elements. -/
def wfList : List Json → Bool
  | [] => true
  | x :: xs => wf x && wfList xs
end

/-- Every value has positive size. -/
theorem json_sizeOf_pos (j : Json) : 0 < sizeOf j := by
  cases j <;> simp <;> omega

/-- A field read never exceeds the field list in size. -/
theorem fieldLookup_sizeOf_lt (fs : List (String × Json)) (k : String) :
    sizeOf (fieldLookup fs k) < 1 + sizeOf fs := by
  induction fs with
  | nil => simp [fieldLookup]
  | cons p rest ih =>
    obtain ⟨k', v⟩ := p
    simp only [fieldLookup]
    split
    · simp; omega
    · simp; omega

/-- Reading a field of an object yields a strictly smaller value. -/
theorem getF_obj_sizeOf_lt (fs : List (String × Json)) (k : String) :
    sizeOf (getF (.obj fs) k) < sizeOf (Json.obj fs) := by
  have := fieldLookup_sizeOf_lt fs k
  simp [getF]
  omega

/-- Reading a field never increases the size. -/
theorem getF_sizeOf_le (j : Json) (k : String) : sizeOf (getF j k) ≤ sizeOf j := by
  cases j <;> simp [getF] <;> try omega
  · exact Nat.le_of_lt (by simpa using getF_obj_sizeOf_lt _ k)

/-- An array member is strictly smaller than the array value. -/
theorem json_arr_mem_sizeOf_lt {x : Json} {xs : List Json} (h : x ∈ xs) :
    sizeOf x < sizeOf (Json.arr xs) := by
  have := List.sizeOf_lt_of_mem h
  simp
  omega

/-- Objects have size at least two. -/
theorem json_obj_sizeOf_ge_two (fs : List (String × Json)) : 2 ≤ sizeOf (Json.obj fs) := by
  cases fs <;> simp <;> omega

/-- Unfolding `wf` on an object. -/
theorem wf_obj (fs : List (String × Json)) :
    wf (.obj fs) = (nodeOK (.obj fs) && wfFields fs) := rfl

/-- Unfolding `wf` on an array. -/
theorem wf_arr (xs : List Json) : wf (.arr xs) = wfList xs := rfl

/-- Every field of a well-formed field list is well-formed. -/
theorem wfFields_lookup (fs : List (String × Json)) (k : String)
    (h : wfFields fs = true) : wf (fieldLookup fs k) = true := by
  induction fs with
  | nil => rfl
  | cons p rest ih =>
    obtain ⟨k2, v⟩ := p
    rw [show wfFields ((k2, v) :: rest) = (wf v && wfFields rest) from rfl,
      Bool.and_eq_true] at h
    simp only [fieldLookup]
    split
    · exact h.1
    · exact ih h.2

/-- Reading a property of a well-formed value yields a well-formed value. -/
theorem wf_getF (j : Json) (k : String) (h : wf j = true) : wf (getF j k) = true := by
  cases j with
  | obj fs =>
    rw [wf_obj, Bool.and_eq_true] at h
    exact wfFields_lookup fs k h.2
  | null => rfl
  | undef => rfl
  | bool b => rfl
  | num n => rfl
  | str s => rfl
  | arr xs => rfl

/-- Every member of a well-formed array is well-formed. -/
theorem wf_arr_mem {xs : List Json} {x : Json} (h : wf (.arr xs) = true)
    (hm : x ∈ xs) : wf x = true := by
  induction xs with
  | nil => cases hm
  | cons y ys ih =>
    rw [show wf (.arr (y :: ys)) = (wf y && wfList ys) from rfl, Bool.and_eq_true] at h
    rcases List.mem_cons.mp hm with rfl | hm2
    · exact h.1
    · exact ih (by rw [wf_arr]; exact h.2) hm2

/-- An array-shaped value is an array. -/
theorem isArr_exists {v : Json} (h : isArr v = true) : ∃ xs, v = .arr xs := by
  cases v <;> simp_all [isArr]

/-- A fold whose step always succeeds succeeds. -/
theorem foldlM_exists_ok {α β : Type} (f : β → α → Except JsErr β) (xs : List α)
    (h : ∀ (b : β) (x : α), x ∈ xs → ∃ r, f b x = .ok r) :
    ∀ init : β, ∃ r, xs.foldlM f init = .ok r := by
  induction xs with
  | nil => intro init; exact ⟨init, rfl⟩
  | cons x xs ih =>
    intro init
    obtain ⟨r, hr⟩ := h init x (by simp)
    obtain ⟨r2, hr2⟩ := ih (fun b y hy => h b y (by simp [hy])) r
    refine ⟨r2, ?_⟩
    rw [show (x :: xs).foldlM f init = (f init x >>= fun b => xs.foldlM f b) from rfl, hr]
    exact hr2

/-- `List.getD` yields a member or the default. -/
theorem getD_mem_or_default {α : Type} (xs : List α) (i : Nat) (d : α) :
    xs.getD i d ∈ xs ∨ xs.getD i d = d := by
  by_cases h : i < xs.length
  · left
    rw [List.getD_eq_getElem xs d h]
    exact List.getElem_mem h
  · right
    exact List.getD_eq_default xs d (by omega)

/-- Specialization of `wfFields_lookup` to `getF` on an object. -/
theorem wf_getF_obj (fs : List (String × Json)) (k : String)
    (h : wfFields fs = true) : wf (getF (.obj fs) k) = true :=
  wfFields_lookup fs k h

/-- A definitely non-positive length value fails the coercing comparison. -/
theorem lengthFalsy_gtZero_false {w : Json} (h : lengthFalsy w = true) :
    jsGtZero w = false := by
  cases w with
  | null => rfl
  | undef => rfl
  | bool b =>
    cases b with
    | true => simp [lengthFalsy] at h
    | false => rfl
  | num n =>
    simp [lengthFalsy] at h
    simp [jsGtZero, jsToNumber]
    omega
  | str s =>
    have hs : s = "" := by simpa [lengthFalsy] using h
    subst hs; rfl
  | arr xs => simp [lengthFalsy] at h
  | obj fs => simp [lengthFalsy] at h

/-- On a well-formed `typeArguments` value a passing guard forces an
actual array. -/
theorem refArgsOK_guard {v : Json} (hok : refArgsOK v = true)
    (hg : (jsTruthy v && jsLengthGtZero v) = true) : isArr v = true := by
  rw [Bool.and_eq_true] at hg
  have hok2 : (isArr v || !jsTruthy v || lengthFalsy (lengthVal v)) = true := hok
  rcases (by simpa using hok2 :
      (isArr v = true ∨ jsTruthy v = false) ∨ lengthFalsy (lengthVal v) = true)
    with (h | h) | h
  · exact h
  · rw [hg.1] at h; cases h
  · exfalso
    have h2 : jsGtZero (lengthVal v) = true := hg.2
    rw [lengthFalsy_gtZero_false h] at h2
    cases h2

/-- `handleReferenceType` with a failing type-argument guard returns the
bare name. -/
theorem handleReferenceType_guard_false (rec : Json → Except JsErr String) (type : Json)
    (h : (jsTruthy (getF type "typeArguments") && jsLengthGtZero (getF type "typeArguments")) =
      false) :
    handleReferenceType rec type = .ok (jsOrToStr (getF type "name") "unknown") := by
  simp [handleReferenceType, h]

/-- `handleReferenceType` with a nonempty argument array renders the angle
bracket list. -/
theorem handleReferenceType_arr (rec : Json → Except JsErr String) (type : Json)
    (xs : List Json) (rs : List String)
    (hxs : getF type "typeArguments" = .arr xs) (hlen : 0 < xs.length)
    (hmap : xs.mapM rec = .ok rs) :
    handleReferenceType rec type =
      .ok (jsOrToStr (getF type "name") "unknown" ++ "<" ++
        String.intercalate ", " rs ++ ">") := by
  have hmap2 : List.mapM.loop rec xs [] = .ok rs := hmap
  simp [handleReferenceType, hxs, asArray, jsTruthy, jsLengthGtZero, jsGtZero, jsToNumber,
    lengthVal, Int.natCast_pos, hlen, hmap, hmap2]

/-- Totality of `handleConditionalType` on well-formed objects. -/
theorem handleConditionalType_total (rec : Json → Except JsErr String)
    (fs : List (String × Json)) (hw : wfFields fs = true)
    (hrec : ∀ x, wf x = true → sizeOf x < sizeOf (Json.obj fs) → ∃ s, rec x = .ok s) :
    ∃ s, handleConditionalType rec (.obj fs) = .ok s := by
  obtain ⟨s1, h1⟩ := hrec _ (wf_getF_obj fs "checkType" hw) (getF_obj_sizeOf_lt fs "checkType")
  obtain ⟨s2, h2⟩ := hrec _ (wf_getF_obj fs "extendsType" hw)
    (getF_obj_sizeOf_lt fs "extendsType")
  obtain ⟨s3, h3⟩ := hrec _ (wf_getF_obj fs "trueType" hw) (getF_obj_sizeOf_lt fs "trueType")
  obtain ⟨s4, h4⟩ := hrec _ (wf_getF_obj fs "falseType" hw) (getF_obj_sizeOf_lt fs "falseType")
  exact ⟨_, by simp [handleConditionalType, h1, h2, h3, h4]; try rfl⟩

/-- Totality of `handleInferredType` on well-formed objects. -/
theorem handleInferredType_total (rec : Json → Except JsErr String)
    (fs : List (String × Json)) (hw : wfFields fs = true)
    (hrec : ∀ x, wf x = true → sizeOf x < sizeOf (Json.obj fs) → ∃ s, rec x = .ok s) :
    ∃ s, handleInferredType rec (.obj fs) = .ok s := by
  by_cases hc : jsTruthy (getF (Json.obj fs) "constraint") = true
  · obtain ⟨c, hcr⟩ := hrec _ (wf_getF_obj fs "constraint" hw)
      (getF_obj_sizeOf_lt fs "constraint")
    exact ⟨_, by simp [handleInferredType, hc, hcr]; try rfl⟩
  · exact ⟨_, by simp [handleInferredType, hc]; try rfl⟩

/-- Totality of `handleMappedType` on well-formed objects. -/
theorem handleMappedType_total (rec : Json → Except JsErr String)
    (fs : List (String × Json)) (hw : wfFields fs = true)
    (hrec : ∀ x, wf x = true → sizeOf x < sizeOf (Json.obj fs) → ∃ s, rec x = .ok s) :
    ∃ s, handleMappedType rec (.obj fs) = .ok s := by
  obtain ⟨pt, hpt⟩ := hrec _ (wf_getF_obj fs "parameterType" hw)
    (getF_obj_sizeOf_lt fs "parameterType")
  obtain ⟨tt, htt⟩ := hrec _ (wf_getF_obj fs "templateType" hw)
    (getF_obj_sizeOf_lt fs "templateType")
  by_cases hn : jsTruthy (getF (Json.obj fs) "nameType") = true
  · obtain ⟨nt, hnt⟩ := hrec _ (wf_getF_obj fs "nameType" hw)
      (getF_obj_sizeOf_lt fs "nameType")
    exact ⟨_, by simp [handleMappedType, hpt, htt, hn, hnt]; try rfl⟩
  · exact ⟨_, by simp [handleMappedType, hpt, htt, hn]; try rfl⟩

/-- Totality of `handlePredicate` on well-formed objects. -/
theorem handlePredicate_total (rec : Json → Except JsErr String)
    (fs : List (String × Json)) (hw : wfFields fs = true)
    (hrec : ∀ x, wf x = true → sizeOf x < sizeOf (Json.obj fs) → ∃ s, rec x = .ok s) :
    ∃ s, handlePredicate rec (.obj fs) = .ok s := by
  by_cases ht : jsTruthy (getF (Json.obj fs) "targetType") = true
  · obtain ⟨t, htr⟩ := hrec _ (wf_getF_obj fs "targetType" hw)
      (getF_obj_sizeOf_lt fs "targetType")
    exact ⟨_, by simp [handlePredicate, ht, htr]; try rfl⟩
  · exact ⟨_, by simp [handlePredicate, ht]; try rfl⟩

/-- Totality of `handleTemplateLiteral` on well-formed objects whose `tail`
is a list of pairs. -/
theorem handleTemplateLiteral_total (rec : Json → Except JsErr String)
    (fs : List (String × Json)) (hok : tailOK (getF (.obj fs) "tail") = true)
    (hw : wfFields fs = true)
    (hrec : ∀ x, wf x = true → sizeOf x < sizeOf (Json.obj fs) → ∃ s, rec x = .ok s) :
    ∃ s, handleTemplateLiteral rec (.obj fs) = .ok s := by
  cases htail : getF (Json.obj fs) "tail" with
  | arr xs =>
    rw [htail] at hok
    have hall : ∀ p ∈ xs, isArr p = true := by
      simpa [tailOK, List.all_eq_true] using hok
    have hwtail : wf (Json.arr xs) = true := by
      rw [← htail]; exact wf_getF_obj fs "tail" hw
    have hsztail : sizeOf (Json.arr xs) < sizeOf (Json.obj fs) := by
      have h1 := getF_obj_sizeOf_lt fs "tail"
      rw [htail] at h1; exact h1
    have hstep : ∀ (acc : String) (p : Json), p ∈ xs →
        ∃ r, templateTailStep rec acc p = .ok r := by
      intro acc p hp
      obtain ⟨ys, hys⟩ := isArr_exists (hall p hp)
      subst hys
      have hwys : wf (Json.arr ys) = true := wf_arr_mem hwtail hp
      have hszys : sizeOf (Json.arr ys) < sizeOf (Json.obj fs) := by
        have := json_arr_mem_sizeOf_lt hp; omega
      have hwf0 : wf (ys.getD 0 Json.undef) = true := by
        rcases getD_mem_or_default ys 0 Json.undef with hm | hd
        · exact wf_arr_mem hwys hm
        · rw [hd]; rfl
      have hsz0 : sizeOf (ys.getD 0 Json.undef) < sizeOf (Json.obj fs) := by
        rcases getD_mem_or_default ys 0 Json.undef with hm | hd
        · have := json_arr_mem_sizeOf_lt hm; omega
        · rw [hd]
          have h2 := json_obj_sizeOf_ge_two fs
          have h3 : sizeOf Json.undef = 1 := rfl
          omega
      obtain ⟨t, ht⟩ := hrec _ hwf0 hsz0
      have ht2 : rec (ys[0]?.getD Json.undef) = .ok t := by simpa using ht
      exact ⟨_, by simp [templateTailStep, destructure2, ht2]; try rfl⟩
    obtain ⟨r, hr⟩ := foldlM_exists_ok (templateTailStep rec) xs
      (fun b x hx => hstep b x hx) ("`" ++ jsToStr (getF (Json.obj fs) "head"))
    exact ⟨_, by simp [handleTemplateLiteral, htail, jsIterate, hr]; try rfl⟩
  | null => rw [htail] at hok; simp [tailOK] at hok
  | undef => rw [htail] at hok; simp [tailOK] at hok
  | bool b => rw [htail] at hok; simp [tailOK] at hok
  | num m => rw [htail] at hok; simp [tailOK] at hok
  | str s => rw [htail] at hok; simp [tailOK] at hok
  | obj gs => rw [htail] at hok; simp [tailOK] at hok

/-- A non-nullish value admits plain property reads. -/
theorem jsGet_of_nonNullish {c : Json} (h : nonNullish c = true) (k : String) :
    jsGet c k = .ok (getF c k) := by
  cases c with
  | null => simp [nonNullish] at h
  | undef => simp [nonNullish] at h
  | bool b => rfl
  | num m => rfl
  | str s => rfl
  | arr a => rfl
  | obj o => rfl


/-- Totality of `handleReflectionType` on well-formed objects whose
declaration satisfies `reflOK`. -/
theorem handleReflectionType_total (rec : Json → Except JsErr String)
    (fs : List (String × Json))
    (hok : reflOK (getF (.obj fs) "declaration") = true)
    (hw : wfFields fs = true)
    (hrec : ∀ x, wf x = true → sizeOf x < sizeOf (Json.obj fs) → ∃ s, rec x = .ok s) :
    ∃ s, handleReflectionType rec (.obj fs) = .ok s := by
  cases hd : jsTruthy (getF (Json.obj fs) "declaration") with
  | false => exact ⟨_, by simp [handleReflectionType, hd]; try rfl⟩
  | true =>
  have hwdecl : wf (getF (Json.obj fs) "declaration") = true := wf_getF_obj fs "declaration" hw
  cases hc : jsTruthy (getF (getF (Json.obj fs) "declaration") "children") with
  | true =>
    cases hch : getF (getF (Json.obj fs) "declaration") "children" with
    | arr cs =>
      have h := hok
      unfold reflOK at h
      rw [hd, hch] at h
      simp [jsTruthy, List.all_eq_true] at h
      have hall : ∀ c ∈ cs, nonNullish c = true := h
      have hwcs : wf (Json.arr cs) = true := by
        rw [← hch]; exact wf_getF _ "children" hwdecl
      have hszcs : sizeOf (Json.arr cs) < sizeOf (Json.obj fs) := by
        have h1 := getF_sizeOf_le (getF (Json.obj fs) "declaration") "children"
        rw [hch] at h1
        have h2 := getF_obj_sizeOf_lt fs "declaration"
        omega
      have hmems : ∀ c ∈ cs, ∃ y, reflChildStep rec c = .ok y := by
        intro c hm
        have hg := jsGet_of_nonNullish (hall c hm) "type"
        have hwc : wf c = true := wf_arr_mem hwcs hm
        have hszc : sizeOf c < sizeOf (Json.obj fs) := by
          have := json_arr_mem_sizeOf_lt hm; omega
        by_cases hct : jsTruthy (getF c "type") = true
        · obtain ⟨t, ht⟩ := hrec (getF c "type") (wf_getF c "type" hwc)
            (by have := getF_sizeOf_le c "type"; omega)
          exact ⟨_, by simp [reflChildStep, hg, hct, ht]; try rfl⟩
        · exact ⟨_, by simp [reflChildStep, hg, hct]; try rfl⟩
      obtain ⟨props, hprops⟩ := mapM_exists_ok (reflChildStep rec) cs hmems
      have hprops2 : List.mapM.loop (reflChildStep rec) cs [] = .ok props := hprops
      have htra : jsTruthy (Json.arr cs) = true := rfl
      exact ⟨_, by
        simp [handleReflectionType, hd, hc, hch, htra, asArray, hprops, hprops2]; try rfl⟩
    | null => exfalso; rw [hch] at hc; simp [jsTruthy] at hc
    | undef => exfalso; rw [hch] at hc; simp [jsTruthy] at hc
    | bool b =>
      exfalso; have h := hok; unfold reflOK at h
      rw [hch] at hc; rw [hd, hch, hc] at h; simp at h
    | num m =>
      exfalso; have h := hok; unfold reflOK at h
      rw [hch] at hc; rw [hd, hch, hc] at h; simp at h
    | str st =>
      exfalso; have h := hok; unfold reflOK at h
      rw [hch] at hc; rw [hd, hch, hc] at h; simp at h
    | obj gs =>
      exfalso; have h := hok; unfold reflOK at h
      rw [hch] at hc; rw [hd, hch, hc] at h; simp at h
  | false =>
    cases hs : jsTruthy (getF (getF (Json.obj fs) "declaration") "signatures") with
    | false => exact ⟨_, by simp [handleReflectionType, hd, hc, hs]; try rfl⟩
    | true =>
    cases hsig : getF (getF (Json.obj fs) "declaration") "signatures" with
    | arr ss =>
      cases ss with
      | nil =>
        exfalso
        have h := hok
        unfold reflOK at h
        rw [hd, hc, hsig] at h
        simp [jsTruthy] at h
      | cons s0 rest =>
        have h := hok
        unfold reflOK at h
        rw [hd, hc, hsig] at h
        simp [jsTruthy] at h
        obtain ⟨hnn0, hps⟩ := h
        have hsig0 : jsIndex (getF (getF (Json.obj fs) "declaration") "signatures") 0 = s0 := by
          rw [hsig]; rfl
        have hgp := jsGet_of_nonNullish hnn0 "parameters"
        have hwss : wf (Json.arr (s0 :: rest)) = true := by
          rw [← hsig]; exact wf_getF _ "signatures" hwdecl
        have hws0 : wf s0 = true := wf_arr_mem hwss (by simp)
        have hszss : sizeOf (Json.arr (s0 :: rest)) < sizeOf (Json.obj fs) := by
          have h1 := getF_sizeOf_le (getF (Json.obj fs) "declaration") "signatures"
          rw [hsig] at h1
          have h2 := getF_obj_sizeOf_lt fs "declaration"
          omega
        have hszs0 : sizeOf s0 < sizeOf (Json.obj fs) := by
          have := json_arr_mem_sizeOf_lt (show s0 ∈ s0 :: rest by simp); omega
        obtain ⟨rt, hrt⟩ := hrec (getF s0 "type") (wf_getF s0 "type" hws0)
          (by have := getF_sizeOf_le s0 "type"; omega)
        cases hps2 : getF s0 "parameters" with
        | null =>
          exact ⟨_, by
            simp [handleReflectionType, hd, hc, hs, hsig0, hgp, hps2, hrt]; try rfl⟩
        | undef =>
          exact ⟨_, by
            simp [handleReflectionType, hd, hc, hs, hsig0, hgp, hps2, hrt]; try rfl⟩
        | arr ps =>
          rw [hps2] at hps
          have hallp : ∀ p ∈ ps, nonNullish p = true := by
            simpa [paramsOK, List.all_eq_true] using hps
          have hwps : wf (Json.arr ps) = true := by
            rw [← hps2]; exact wf_getF s0 "parameters" hws0
          have hszps : sizeOf (Json.arr ps) < sizeOf (Json.obj fs) := by
            have := getF_sizeOf_le s0 "parameters"
            rw [hps2] at this; omega
          have hmems : ∀ p ∈ ps, ∃ y, reflParamStep rec p = .ok y := by
            intro p hm
            have hgn := jsGet_of_nonNullish (hallp p hm) "name"
            have hwp : wf p = true := wf_arr_mem hwps hm
            have hszp : sizeOf p < sizeOf (Json.obj fs) := by
              have := json_arr_mem_sizeOf_lt hm; omega
            obtain ⟨pt, hpt⟩ := hrec (getF p "type") (wf_getF p "type" hwp)
              (by have := getF_sizeOf_le p "type"; omega)
            exact ⟨_, by simp [reflParamStep, hgn, hpt]; try rfl⟩
          obtain ⟨rs, hrs⟩ := mapM_exists_ok (reflParamStep rec) ps hmems
          have hrs2 : List.mapM.loop (reflParamStep rec) ps [] = .ok rs := hrs
          exact ⟨_, by
            simp [handleReflectionType, hd, hc, hs, hsig0, hgp, hps2, asArray,
              hrs, hrs2, hrt]; try rfl⟩
        | bool b => rw [hps2] at hps; simp [paramsOK] at hps
        | num m => rw [hps2] at hps; simp [paramsOK] at hps
        | str st => rw [hps2] at hps; simp [paramsOK] at hps
        | obj gs => rw [hps2] at hps; simp [paramsOK] at hps
    | null => exfalso; rw [hsig] at hs; simp [jsTruthy] at hs
    | undef => exfalso; rw [hsig] at hs; simp [jsTruthy] at hs
    | bool b =>
      exfalso; have h := hok; unfold reflOK at h
      rw [hsig] at hs; rw [hd, hc, hsig, hs] at h; simp at h
    | num m =>
      exfalso; have h := hok; unfold reflOK at h
      rw [hsig] at hs; rw [hd, hc, hsig, hs] at h; simp at h
    | str st =>
      exfalso; have h := hok; unfold reflOK at h
      rw [hsig] at hs; rw [hd, hc, hsig, hs] at h; simp at h
    | obj gs =>
      exfalso; have h := hok; unfold reflOK at h
      rw [hsig] at hs; rw [hd, hc, hsig, hs] at h; simp at h

/-- Totality of the renderer: with enough fuel, `typeToString` returns a
string on every hereditarily well-formed input. -/
theorem typeToString_total :
    ∀ (n : Nat) (j : Json), wf j = true → sizeOf j ≤ n →
      ∃ s, typeToString n j = .ok s := by
  intro n
  induction n with
  | zero =>
    intro j _ hsz
    have := json_sizeOf_pos j
    omega
  | succ n ih =>
    intro j hwf hsz
    cases htr : jsTruthy j with
    | false => exact ⟨"any", by simp [typeToString, htr]⟩
    | true =>
    cases j with
    | null => simp [jsTruthy] at htr
    | undef => simp [jsTruthy] at htr
    | bool b => exact ⟨_, by simp [typeToString, htr, getF]; try rfl⟩
    | num m => exact ⟨_, by simp [typeToString, htr, getF]; try rfl⟩
    | str s => exact ⟨s, by simp [typeToString, htr]⟩
    | arr xs => exact ⟨_, by simp [typeToString, htr, getF]; try rfl⟩
    | obj fs =>
    rw [wf_obj, Bool.and_eq_true] at hwf
    obtain ⟨hnode, hw⟩ := hwf
    have hrec : ∀ x, wf x = true → sizeOf x < sizeOf (Json.obj fs) →
        ∃ s, typeToString n x = .ok s := by
      intro x hx hlt
      exact ih x hx (by omega)
    cases htag : getF (Json.obj fs) "type" with
    | null => exact ⟨_, by simp [typeToString, htr, htag]; try rfl⟩
    | undef => exact ⟨_, by simp [typeToString, htr, htag]; try rfl⟩
    | bool b => exact ⟨_, by simp [typeToString, htr, htag]; try rfl⟩
    | num m => exact ⟨_, by simp [typeToString, htr, htag]; try rfl⟩
    | arr ts => exact ⟨_, by simp [typeToString, htr, htag]; try rfl⟩
    | obj gs => exact ⟨_, by simp [typeToString, htr, htag]; try rfl⟩
    | str tag =>
    by_cases t1 : tag = "intrinsic"
    · subst t1
      exact ⟨_, by simp [typeToString, htr, htag]; try rfl⟩
    by_cases t2 : tag = "reference"
    · subst t2
      have hok : refArgsOK (getF (Json.obj fs) "typeArguments") = true := by
        have h := hnode; unfold nodeOK at h; rw [htag] at h; simpa using h
      cases hg : (jsTruthy (getF (Json.obj fs) "typeArguments") &&
          jsLengthGtZero (getF (Json.obj fs) "typeArguments")) with
      | false =>
        exact ⟨_, by simp [typeToString, htr, htag,
          handleReferenceType_guard_false (typeToString n) (Json.obj fs) hg]; try rfl⟩
      | true =>
        have hii : isArr (getF (Json.obj fs) "typeArguments") = true :=
          refArgsOK_guard hok hg
        obtain ⟨xs, hxs⟩ := isArr_exists hii
        have hwarr : wf (Json.arr xs) = true := by
          rw [← hxs]; exact wf_getF_obj fs "typeArguments" hw
        have hlt : sizeOf (Json.arr xs) < sizeOf (Json.obj fs) := by
          have h3 := getF_obj_sizeOf_lt fs "typeArguments"
          rw [hxs] at h3; exact h3
        have hlen : 0 < xs.length := by
          have hga := hg
          rw [Bool.and_eq_true] at hga
          have h2 := hga.2
          rw [hxs] at h2
          simp [jsLengthGtZero, jsGtZero, jsToNumber, lengthVal] at h2
          exact_mod_cast h2
        have hmems : ∀ x ∈ xs, ∃ s, typeToString n x = .ok s := by
          intro x hm
          exact hrec x (wf_arr_mem hwarr hm)
            (by have := json_arr_mem_sizeOf_lt hm; omega)
        obtain ⟨rs, hrs⟩ := mapM_exists_ok (typeToString n) xs hmems
        exact ⟨_, by simp [typeToString, htr, htag,
          handleReferenceType_arr (typeToString n) (Json.obj fs) xs rs hxs hlen hrs]; try rfl⟩
    by_cases t3 : tag = "array"
    · subst t3
      obtain ⟨e, he⟩ := hrec _ (wf_getF_obj fs "elementType" hw)
        (getF_obj_sizeOf_lt fs "elementType")
      exact ⟨_, by simp [typeToString, htr, htag, he]; try rfl⟩
    by_cases t4 : tag = "union"
    · subst t4
      have hii : isArr (getF (Json.obj fs) "types") = true := by
        have h := hnode; unfold nodeOK at h; rw [htag] at h; simpa using h
      obtain ⟨ts, hts⟩ := isArr_exists hii
      have hwarr : wf (Json.arr ts) = true := by
        rw [← hts]; exact wf_getF_obj fs "types" hw
      have hlt2 : sizeOf (Json.arr ts) < sizeOf (Json.obj fs) := by
        have h3 := getF_obj_sizeOf_lt fs "types"; rw [hts] at h3; exact h3
      have hmems : ∀ x ∈ ts, ∃ s, typeToString n x = .ok s := by
        intro x hm
        exact hrec x (wf_arr_mem hwarr hm)
          (by have := json_arr_mem_sizeOf_lt hm; omega)
      obtain ⟨rs, hrs⟩ := mapM_exists_ok (typeToString n) ts hmems
      have hrs2 : List.mapM.loop (typeToString n) ts [] = .ok rs := hrs
      exact ⟨_, by simp [typeToString, htr, htag, hts, asArray, hrs, hrs2]; try rfl⟩
    by_cases t5 : tag = "intersection"
    · subst t5
      have hii : isArr (getF (Json.obj fs) "types") = true := by
        have h := hnode; unfold nodeOK at h; rw [htag] at h; simpa using h
      obtain ⟨ts, hts⟩ := isArr_exists hii
      have hwarr : wf (Json.arr ts) = true := by
        rw [← hts]; exact wf_getF_obj fs "types" hw
      have hlt2 : sizeOf (Json.arr ts) < sizeOf (Json.obj fs) := by
        have h3 := getF_obj_sizeOf_lt fs "types"; rw [hts] at h3; exact h3
      have hmems : ∀ x ∈ ts, ∃ s, typeToString n x = .ok s := by
        intro x hm
        exact hrec x (wf_arr_mem hwarr hm)
          (by have := json_arr_mem_sizeOf_lt hm; omega)
      obtain ⟨rs, hrs⟩ := mapM_exists_ok (typeToString n) ts hmems
      have hrs2 : List.mapM.loop (typeToString n) ts [] = .ok rs := hrs
      exact ⟨_, by simp [typeToString, htr, htag, hts, asArray, hrs, hrs2]; try rfl⟩
    by_cases t6 : tag = "literal"
    · subst t6
      exact ⟨_, by simp [typeToString, htr, htag]; try rfl⟩
    by_cases t7 : tag = "tuple"
    · subst t7
      have hii : isArr (getF (Json.obj fs) "elements") = true := by
        have h := hnode; unfold nodeOK at h; rw [htag] at h; simpa using h
      obtain ⟨ts, hts⟩ := isArr_exists hii
      have hwarr : wf (Json.arr ts) = true := by
        rw [← hts]; exact wf_getF_obj fs "elements" hw
      have hlt2 : sizeOf (Json.arr ts) < sizeOf (Json.obj fs) := by
        have h3 := getF_obj_sizeOf_lt fs "elements"; rw [hts] at h3; exact h3
      have hmems : ∀ x ∈ ts, ∃ s, typeToString n x = .ok s := by
        intro x hm
        exact hrec x (wf_arr_mem hwarr hm)
          (by have := json_arr_mem_sizeOf_lt hm; omega)
      obtain ⟨rs, hrs⟩ := mapM_exists_ok (typeToString n) ts hmems
      have hrs2 : List.mapM.loop (typeToString n) ts [] = .ok rs := hrs
      exact ⟨_, by simp [typeToString, htr, htag, hts, asArray, hrs, hrs2]; try rfl⟩
    by_cases t8 : tag = "namedTupleMember"
    · subst t8
      obtain ⟨e, he⟩ := hrec _ (wf_getF_obj fs "element" hw)
        (getF_obj_sizeOf_lt fs "element")
      exact ⟨_, by simp [typeToString, htr, htag, he]; try rfl⟩
    by_cases t9 : tag = "reflection"
    · subst t9
      have hok : reflOK (getF (Json.obj fs) "declaration") = true := by
        have h := hnode; unfold nodeOK at h; rw [htag] at h; simpa using h
      obtain ⟨r, hh⟩ := handleReflectionType_total (typeToString n) fs hok hw hrec
      exact ⟨_, by simp [typeToString, htr, htag, hh]; try rfl⟩
    by_cases t10 : tag = "optional"
    · subst t10
      obtain ⟨e, he⟩ := hrec _ (wf_getF_obj fs "elementType" hw)
        (getF_obj_sizeOf_lt fs "elementType")
      exact ⟨_, by simp [typeToString, htr, htag, he]; try rfl⟩
    by_cases t11 : tag = "rest"
    · subst t11
      obtain ⟨e, he⟩ := hrec _ (wf_getF_obj fs "elementType" hw)
        (getF_obj_sizeOf_lt fs "elementType")
      exact ⟨_, by simp [typeToString, htr, htag, he]; try rfl⟩
    by_cases t12 : tag = "conditional"
    · subst t12
      obtain ⟨r, hh⟩ := handleConditionalType_total (typeToString n) fs hw hrec
      exact ⟨_, by simp [typeToString, htr, htag, hh]; try rfl⟩
    by_cases t13 : tag = "inferred"
    · subst t13
      obtain ⟨r, hh⟩ := handleInferredType_total (typeToString n) fs hw hrec
      exact ⟨_, by simp [typeToString, htr, htag, hh]; try rfl⟩
    by_cases t14 : tag = "indexedAccess"
    · subst t14
      obtain ⟨o, ho⟩ := hrec _ (wf_getF_obj fs "objectType" hw)
        (getF_obj_sizeOf_lt fs "objectType")
      obtain ⟨i, hi⟩ := hrec _ (wf_getF_obj fs "indexType" hw)
        (getF_obj_sizeOf_lt fs "indexType")
      exact ⟨_, by simp [typeToString, htr, htag, ho, hi]; try rfl⟩
    by_cases t15 : tag = "mapped"
    · subst t15
      obtain ⟨r, hh⟩ := handleMappedType_total (typeToString n) fs hw hrec
      exact ⟨_, by simp [typeToString, htr, htag, hh]; try rfl⟩
    by_cases t16 : tag = "typeOperator"
    · subst t16
      obtain ⟨t, ht⟩ := hrec _ (wf_getF_obj fs "target" hw)
        (getF_obj_sizeOf_lt fs "target")
      exact ⟨_, by simp [typeToString, htr, htag, ht]; try rfl⟩
    by_cases t17 : tag = "query"
    · subst t17
      obtain ⟨q, hq⟩ := hrec _ (wf_getF_obj fs "queryType" hw)
        (getF_obj_sizeOf_lt fs "queryType")
      exact ⟨_, by simp [typeToString, htr, htag, hq]; try rfl⟩
    by_cases t18 : tag = "templateLiteral"
    · subst t18
      have hok : tailOK (getF (Json.obj fs) "tail") = true := by
        have h := hnode; unfold nodeOK at h; rw [htag] at h; simpa using h
      obtain ⟨r, hh⟩ := handleTemplateLiteral_total (typeToString n) fs hok hw hrec
      exact ⟨_, by simp [typeToString, htr, htag, hh]; try rfl⟩
    by_cases t19 : tag = "predicate"
    · subst t19
      obtain ⟨r, hh⟩ := handlePredicate_total (typeToString n) fs hw hrec
      exact ⟨_, by simp [typeToString, htr, htag, hh]; try rfl⟩
    have hmem : tag ∉ recognizedTypeTags := by
      simp only [recognizedTypeTags, List.mem_cons, List.not_mem_nil, or_false, not_or]
      exact ⟨t1, t2, t3, t4, t5, t6, t7, t8, t9, t10, t11, t12, t13, t14, t15, t16, t17,
        t18, t19⟩
    exact ⟨_, typeToString_default n (Json.obj fs) tag htag hmem⟩

/-- C1 (amended): the renderer is total on hereditarily well-formed type
trees — every node whose tag requires a list field (`union`/`intersection`
member lists, `tuple` elements, `templateLiteral` tail pairs, `reflection`
declarations with list-shaped children or signatures) actually has one of
the right shape, and every `reference` node's `typeArguments` is either an
array or a value on which the coercing `typeArguments.length > 0` guard
definitely fails.
On such inputs `typeToString` never throws: with fuel at least the size of
the tree it returns a string (recognized tags render structurally,
unrecognized tags degrade to the name field or "unknown", absent input
renders as "any"). -/
theorem c1_amended (n : Nat) (j : Json) (hwf : wf j = true) (hsz : sizeOf j ≤ n) :
    ∃ s, typeToString n j = .ok s :=
  typeToString_total n j hwf hsz

/-- A nested well-formed node: a union of an intrinsic and an array type. -/
def c1wNode : Json :=
  .obj [("type", .str "union"),
        ("types", .arr [
          .obj [("type", .str "intrinsic"), ("name", .str "A")],
          .obj [("type", .str "array"),
                ("elementType", .obj [("type", .str "intrinsic"), ("name", .str "string")])]])]

/-- C1 witness: the amended totality theorem applied to the concrete nested
union node, with both hypotheses discharged by evaluation. -/
theorem c1_amended_witness :
    wf c1wNode = true ∧ ∃ s, typeToString (sizeOf c1wNode) c1wNode = .ok s :=
  ⟨by decide, c1_amended (sizeOf c1wNode) c1wNode (by decide) (le_refl _)⟩
